import Mathlib

/-! readAngio: ordered-volume assembly from a DICOM series.

A shallow embedding of `src/main.cxx`.  The program reads every file of the first
series found in a folder, pairs each decoded slice with the value of its Content
Time tag `0008|0033`, sorts the pairs with `std::sort`, allocates a 3-D volume and
copies plane `z = 0` of every slice into it, then hands the volume to a file writer.

The collaborators that live outside the repository (the GDCM file-name generator,
the ITK file reader and writer, `GDCMImageIO::GetLabelFromTag`, `atof`, `std::sort`,
the memory allocator) are fields of an environment record `Env`; `main` is a total
function of that environment and of the parsed command line.  A run is described
by the sequence of its observable events and by the way the process ends.
-/

namespace ReadAngio

/-! ## Values -/

/-- The values of the C++ type `double` as far as `operator<` can tell them apart:
the finite values (as rationals, the two zeros identified), the two infinities and
NaN. -/
inductive Double where
  | nan
  | negInf
  | fin (q : ℚ)
  | posInf
deriving DecidableEq

/-- The IEEE comparison `a < b` on `double`: false as soon as one side is NaN. -/
def Double.lt : Double → Double → Bool
  | .fin a, .fin b => decide (a < b)
  | .negInf, .fin _ => true
  | .negInf, .posInf => true
  | .fin _, .posInf => true
  | _, _ => false

/-- An `itk::Size<3>`. -/
structure Size3 where
  x : Nat
  y : Nat
  z : Nat
deriving DecidableEq

/-- An `itk::Index<3>` (signed components). -/
structure Index3 where
  x : Int
  y : Int
  z : Int
deriving DecidableEq

/-- An `itk::Point<double,3>` or `itk::Vector<double,3>`. -/
structure Point3 where
  x : Double
  y : Double
  z : Double
deriving DecidableEq

/-- An entry of an `itk::MetaDataDictionary`: either a `MetaDataObject<std::string>`
or an object of another type, on which the `dynamic_cast` of line 188 gives null. -/
inductive MetaDataObject where
  | str (value : String)
  | other
deriving DecidableEq

/-- The type `DCMImageType = itk::Image<unsigned short, 3>`: region (size and start
index), origin, spacing, the pixel container in raster order and the metadata
dictionary.  A container that has not been allocated is the empty list. -/
structure DCMImage where
  size : Size3
  start : Index3
  origin : Point3
  spacing : Point3
  buffer : List Nat
  dict : List (String × MetaDataObject)
deriving DecidableEq

/-- The offset `itk::ImageBase::ComputeOffset` gives to an index: the index relative
to the start of the region, weighted by the offset table `[1, size.x, size.x * size.y]`. -/
def ComputeOffset (im : DCMImage) (ind : Index3) : Int :=
  (ind.x - im.start.x) + (ind.y - im.start.y) * im.size.x
    + (ind.z - im.start.z) * (im.size.x * im.size.y)

/-- The call `im->GetPixel(ind)`: the element of the pixel container at the computed
offset; `none` when that offset is outside the container (the C++ call does not check). -/
def GetPixel (im : DCMImage) (ind : Index3) : Option Nat :=
  if 0 ≤ ComputeOffset im ind then im.buffer[(ComputeOffset im ind).toNat]? else none

/-- The call `im->SetPixel(ind, v)`: the image with the element at the computed offset
replaced; `none` when that offset is outside the container. -/
def SetPixel (im : DCMImage) (ind : Index3) (v : Nat) : Option DCMImage :=
  if 0 ≤ ComputeOffset im ind ∧ (ComputeOffset im ind).toNat < im.buffer.length then
    some { im with buffer := im.buffer.set (ComputeOffset im ind).toNat v }
  else none

/-- The class `DCMDate` (lines 44-55): a key and a smart pointer to a slice, null
when `ptr` is `none`. -/
structure DCMDate where
  date : Double
  ptr : Option DCMImage
deriving DecidableEq

/-- The default constructor `DCMDate(){}`: the pointer is null and `date` is left
uninitialised; its value is whatever `uninit` happens to be. -/
def DCMDate.default (uninit : Double) : DCMDate := ⟨uninit, none⟩

/-- The comparator of lines 58-60. -/
def sortByAcquisitionDate (dcm1 dcm2 : DCMDate) : Bool :=
  Double.lt dcm1.date dcm2.date

/-- The constant `entry_id` of line 146. -/
def entry_id : String := "0008|0033"

/-! ## Environment, events and outcomes -/

/-- What the program obtains from outside the repository. -/
structure Env where
  /-- The result of `nameGenerator->GetSeriesUIDs()` for a directory. -/
  seriesUIDs : String → List String
  /-- The result of `nameGenerator->GetFileNames(uid)` for a directory and a series. -/
  fileNames : String → String → List String
  /-- The slice `f_reader->Update()` decodes from a file; `none` when it throws. -/
  readSlice : String → Option DCMImage
  /-- The label `GDCMImageIO::GetLabelFromTag` finds; `none` when it returns false. -/
  getLabelFromTag : String → Option String
  /-- The C function `atof`. -/
  atof : String → Double
  /-- The function `std::sort` with a comparator. -/
  stdSort : (DCMDate → DCMDate → Bool) → List DCMDate → List DCMDate
  /-- The value an uninitialised `double` member holds. -/
  uninitDate : Double
  /-- The value a freshly allocated pixel holds. -/
  uninitPixel : Nat
  /-- Whether `angio->Allocate()` throws for a region of this size. -/
  allocateThrows : Size3 → Bool
  /-- Whether `writer->Update()` throws for this volume and path. -/
  writerThrows : DCMImage → String → Bool

/-- Lines the statements of `main.cxx` write to the standard output. -/
inductive Cout where
  | banner
  | inputs (verbose : Bool) (inputPath outputPath : String)
  | fileName (file : String)
  | tagValue (tagkey labelId : String) (value : Double)
  | volumeCreated
  | final (outputPath : String)
deriving DecidableEq

/-- Lines the statements of `main.cxx` write to the standard error stream. -/
inductive Cerr where
  | missingParameters
  | readException (file : String)
  | tagNotFound
  | entryNotFound
  | allocationError
  | writeError (outputPath : String)
deriving DecidableEq

/-- The observable steps of a run: what `main.cxx` prints and the calls it makes.
What the libraries and the C++ runtime print on their own is not recorded. -/
inductive Event where
  | cout (msg : Cout)
  | cerr (msg : Cerr)
  | readerUpdate (file : String)
  | sort (result : List DCMDate)
  | allocate (size : Size3)
  | writerUpdate (volume : DCMImage) (path : String)
deriving DecidableEq

/-- Places where the program steps outside defined behaviour. -/
inductive Fault where
  | emptySeries
  | nullSlice
  | getPixel
  | setPixel
deriving DecidableEq

/-- How the process ends: `main` returns normally, the process exits with
`EXIT_FAILURE`, an exception nobody catches reaches `std::terminate` (whose handler
reports it and aborts the process), or the program runs into undefined behaviour. -/
inductive Exit where
  | success
  | failure
  | terminated
  | undefined (site : Fault)
deriving DecidableEq

/-- A run of the program. -/
structure Run where
  trace : List Event
  status : Exit
deriving DecidableEq

/-- The loop `for (k = 0; k < n; ++k) body(k)` over a state, stopping at the first
error. -/
def forLoop {ε σ : Type} (n : Nat) (body : Nat → σ → Except ε σ) (s : σ) : Except ε σ :=
  match n with
  | 0 => .ok s
  | k + 1 =>
    match forLoop k body s with
    | .error e => .error e
    | .ok s1 => body k s1

/-! ## The program -/

/-- The body of the read loop, lines 166-208, for index `i`.  The state is the trace
so far and `dcm_list`; an error is the finished run. -/
def readBody (env : Env) (verbose : Bool) (fileNames : List String) (i : Nat)
    (st : List Event × List DCMDate) : Except Run (List Event × List DCMDate) :=
  match fileNames[i]? with
  | none => .error ⟨st.1, .terminated⟩
  | some file =>
    let tr := (if verbose then st.1 ++ [.cout (.fileName file)] else st.1)
      ++ [.readerUpdate file]
    match env.readSlice file with
    | none => .error ⟨tr ++ [.cerr (.readException file)], .failure⟩
    | some im =>
      match im.dict.find? (fun e => e.1 == entry_id) with
      | none => .error ⟨tr ++ [.cerr .tagNotFound], .failure⟩
      | some (_, .other) => .error ⟨tr ++ [.cerr .entryNotFound], .failure⟩
      | some (tagkey, .str tagvalue) =>
        match env.getLabelFromTag tagkey with
        | some labelId =>
          .ok ((if verbose then tr ++ [.cout (.tagValue tagkey labelId (env.atof tagvalue))]
                else tr),
               st.2.set i ⟨env.atof tagvalue, some im⟩)
        | none => .ok (tr, st.2)

/-- Lines 162-209: `dcm_list` starts as one default-constructed entry per file and
the read loop runs over all files. -/
def readLoop (env : Env) (verbose : Bool) (fileNames : List String) (tr : List Event) :
    Except Run (List Event × List DCMDate) :=
  forLoop fileNames.length (readBody env verbose fileNames)
    (tr, List.replicate fileNames.length (DCMDate.default env.uninitDate))

/-- Lines 215-227: the volume before allocation, built from the first entry of the
sorted list.  `dcm_list.at(0)` throws on an empty list; a null `ptr` is dereferenced. -/
def volumeHeader (dcm_list : List DCMDate) : Except Exit DCMImage :=
  match dcm_list with
  | [] => .error .terminated
  | d0 :: _ =>
    match d0.ptr with
    | none => .error (.undefined .nullSlice)
    | some p0 =>
      .ok { size := ⟨p0.size.x, p0.size.y, dcm_list.length⟩
            start := ⟨0, 0, 0⟩
            origin := p0.origin
            spacing := p0.spacing
            buffer := []
            dict := [] }

/-- Lines 229-234: `angio->Allocate()` inside a `try`; the handler prints a message
and execution goes on after it. -/
def allocate (env : Env) (angio : DCMImage) : List Event × DCMImage :=
  if env.allocateThrows angio.size then
    ([.allocate angio.size, .cerr .allocationError], angio)
  else
    ([.allocate angio.size],
     { angio with
       buffer := List.replicate (angio.size.x * angio.size.y * angio.size.z) env.uninitPixel })

/-- The statement of line 249 for one `(i, x, y)`. -/
def copyPixel (dcmi : Option DCMImage) (i x y : Nat) (angio : DCMImage) :
    Except Exit DCMImage :=
  match dcmi with
  | none => .error (.undefined .nullSlice)
  | some p =>
    match GetPixel p ⟨x, y, 0⟩ with
    | none => .error (.undefined .getPixel)
    | some v =>
      match SetPixel angio ⟨x, y, i⟩ v with
      | none => .error (.undefined .setPixel)
      | some a => .ok a

/-- Lines 240-252 for one `i`: the loops over `x` and `y`. -/
def fillPlane (dcm_list : List DCMDate) (size : Size3) (i : Nat) (angio : DCMImage) :
    Except Exit DCMImage :=
  match dcm_list[i]? with
  | none => .error .terminated
  | some d =>
    forLoop size.x (fun x a => forLoop size.y (fun y b => copyPixel d.ptr i x y b) a) angio

/-- Lines 238-252: the fill loop. -/
def fillVolume (dcm_list : List DCMDate) (angio : DCMImage) : Except Exit DCMImage :=
  forLoop angio.size.z (fillPlane dcm_list angio.size) angio

/-- Lines 211-252: sort, create the volume, allocate it and fill it.  The result is
the events of these steps and either the filled volume or the way the run ended. -/
def buildVolume (env : Env) (dcm_list : List DCMDate) : List Event × Except Exit DCMImage :=
  let sorted := env.stdSort sortByAcquisitionDate dcm_list
  match volumeHeader sorted with
  | .error e => ([.sort sorted], .error e)
  | .ok header =>
    let al := allocate env header
    (.sort sorted :: al.1, fillVolume sorted al.2)

/-- Lines 253-277: the verbose message, the writer and the final message.  The cast
filter turns every `unsigned short` into the `float` of the same value; the event
records the volume it is given. -/
def writeVolume (env : Env) (verbose : Bool) (outputPath : String) (angio : DCMImage) : Run :=
  let tr := (if verbose then [Event.cout .volumeCreated] else [])
    ++ [.writerUpdate angio outputPath]
  if env.writerThrows angio outputPath then
    ⟨tr ++ [.cerr (.writeError outputPath)], .failure⟩
  else
    ⟨tr ++ [.cout (.final outputPath)], .success⟩

/-- Lines 162-277 on the file names of the series. -/
def pipeline (env : Env) (verbose : Bool) (outputPath : String) (fileNames : List String)
    (tr : List Event) : Run :=
  match readLoop env verbose fileNames tr with
  | .error r => r
  | .ok (tr1, dcm_list) =>
    match buildVolume env dcm_list with
    | (ev, .error e) => ⟨tr1 ++ ev, e⟩
    | (ev, .ok angio) =>
      let w := writeVolume env verbose outputPath angio
      ⟨tr1 ++ ev ++ w.trace, w.status⟩

/-- The function `main` after option parsing: the parameter check of lines 113-120,
the series lookup of lines 155-160 and the pipeline. -/
def main (env : Env) (inputPath outputPath : String) (verbose : Bool) : Run :=
  if inputPath = "" ∨ outputPath = "" then
    ⟨[.cout .banner, .cerr .missingParameters], .failure⟩
  else
    let tr := [Event.cout .banner, .cout (.inputs verbose inputPath outputPath)]
    match env.seriesUIDs inputPath with
    | [] => ⟨tr, .undefined .emptySeries⟩
    | seriesIdentifier :: _ =>
      pipeline env verbose outputPath (env.fileNames inputPath seriesIdentifier) tr

/-! ## `std::sort` as libstdc++ implements it

The functions of `bits/stl_algo.h` and `bits/stl_heap.h` (GCC 12) that `std::sort`
runs, on a list in place of the container.  Iterators are indices into the list and
a move is a copy; a read or write at an index outside the list, which the C++ code
does not check, gives `none`.  Loops whose end depends on the data take a bound on
the number of steps that is never reached inside the list. -/

namespace Libstdcxx

/-- The assignment `*(first + i) = v`. -/
def writeAt {α : Type} (l : List α) (i : Nat) (v : α) : Option (List α) :=
  if i < l.length then some (l.set i v) else none

/-- The call `std::iter_swap(i, j)`. -/
def iter_swap {α : Type} (l : List α) (i j : Nat) : Option (List α) :=
  match l[i]?, l[j]? with
  | some a, some b => (writeAt l i b).bind (fun l1 => writeAt l1 j a)
  | _, _ => none

/-- The function `__move_median_to_first(result, a, b, c, comp)`. -/
def move_median_to_first {α : Type} (comp : α → α → Bool) (l : List α)
    (result a b c : Nat) : Option (List α) :=
  match l[a]?, l[b]?, l[c]? with
  | some va, some vb, some vc =>
    if comp va vb then
      if comp vb vc then iter_swap l result b
      else if comp va vc then iter_swap l result c
      else iter_swap l result a
    else if comp va vc then iter_swap l result a
    else if comp vb vc then iter_swap l result c
    else iter_swap l result b
  | _, _, _ => none

/-- The function `__unguarded_linear_insert(last, comp)` once `val = *last` has been
taken; the first argument is `last`, and `next` is the index before it. -/
def unguarded_linear_insert {α : Type} (comp : α → α → Bool) (val : α) :
    Nat → List α → Option (List α)
  | 0, _ => none
  | next + 1, l =>
    match l[next]? with
    | none => none
    | some v =>
      if comp val v then
        (writeAt l (next + 1) v).bind (unguarded_linear_insert comp val next)
      else writeAt l (next + 1) val

/-- The body of the loop of `__insertion_sort` for one `i`: an element less than the
first one is moved to the front and the elements before it are shifted up by one;
any other element is inserted without a guard. -/
def insertion_step {α : Type} (comp : α → α → Bool) (first i : Nat) (l : List α) :
    Option (List α) :=
  match l[i]?, l[first]? with
  | some vi, some vf =>
    if comp vi vf then
      some (l.take first ++ vi :: (l.drop first).take (i - first) ++ l.drop (i + 1))
    else unguarded_linear_insert comp vi i l
  | _, _ => none

/-- The loop `for (i = start; i != start + n; ++i) body(i)`. -/
def rangeLoop {σ : Type} (body : Nat → σ → Option σ) : Nat → Nat → σ → Option σ
  | 0, _, s => some s
  | n + 1, i, s => (body i s).bind (rangeLoop body n (i + 1))

/-- The function `__insertion_sort(first, last, comp)`. -/
def insertion_sort {α : Type} (comp : α → α → Bool) (l : List α) (first last : Nat) :
    Option (List α) :=
  if first = last then some l
  else rangeLoop (insertion_step comp first) (last - (first + 1)) (first + 1) l

/-- The function `__unguarded_insertion_sort(first, last, comp)`. -/
def unguarded_insertion_sort {α : Type} (comp : α → α → Bool) (l : List α)
    (first last : Nat) : Option (List α) :=
  rangeLoop (fun i l1 => match l1[i]? with
    | none => none
    | some vi => unguarded_linear_insert comp vi i l1) (last - first) first l

/-- The constant `_S_threshold`. -/
def S_threshold : Nat := 16

/-- The function `__final_insertion_sort(first, last, comp)`. -/
def final_insertion_sort {α : Type} (comp : α → α → Bool) (l : List α) (first last : Nat) :
    Option (List α) :=
  if last - first > S_threshold then
    (insertion_sort comp l first (first + S_threshold)).bind
      (fun l1 => unguarded_insertion_sort comp l1 (first + S_threshold) last)
  else insertion_sort comp l first last

/-- The loop `while (comp(first, pivot)) ++first` of `__unguarded_partition`; the
first argument bounds the number of steps. -/
def scanUp {α : Type} (comp : α → α → Bool) (l : List α) (pivot : Nat) :
    Nat → Nat → Option Nat
  | 0, _ => none
  | k + 1, first =>
    match l[first]?, l[pivot]? with
    | some v, some pv => if comp v pv then scanUp comp l pivot k (first + 1) else some first
    | _, _ => none

/-- The loop `while (comp(pivot, last)) --last` of `__unguarded_partition`; the
argument is `last`. -/
def scanDown {α : Type} (comp : α → α → Bool) (l : List α) (pivot : Nat) : Nat → Option Nat
  | 0 =>
    match l[0]?, l[pivot]? with
    | some v, some pv => if comp pv v then none else some 0
    | _, _ => none
  | last + 1 =>
    match l[last + 1]?, l[pivot]? with
    | some v, some pv => if comp pv v then scanDown comp l pivot last else some (last + 1)
    | _, _ => none

/-- The function `__unguarded_partition(first, last, pivot, comp)`; the first
argument bounds the number of rounds.  The result is the cut and the list. -/
def unguarded_partition {α : Type} (comp : α → α → Bool) (pivot : Nat) :
    Nat → List α → Nat → Nat → Option (Nat × List α)
  | 0, _, _, _ => none
  | k + 1, l, first, last =>
    match scanUp comp l pivot (l.length + 1) first with
    | none => none
    | some first1 =>
      match last with
      | 0 => none
      | last0 + 1 =>
        match scanDown comp l pivot last0 with
        | none => none
        | some last1 =>
          if first1 < last1 then
            match iter_swap l first1 last1 with
            | none => none
            | some l1 => unguarded_partition comp pivot k l1 (first1 + 1) last1
          else some (first1, l)

/-- The function `__unguarded_partition_pivot(first, last, comp)`. -/
def unguarded_partition_pivot {α : Type} (comp : α → α → Bool) (l : List α)
    (first last : Nat) : Option (Nat × List α) :=
  match move_median_to_first comp l first (first + 1) (first + (last - first) / 2)
      (last - 1) with
  | none => none
  | some l1 => unguarded_partition comp first (l1.length + 1) l1 (first + 1) last

/-- The function `__push_heap(first, holeIndex, topIndex, value, comp)`; the argument
before the list bounds the number of steps. -/
def push_heap {α : Type} (comp : α → α → Bool) (first topIndex : Nat) (value : α) :
    Nat → List α → Nat → Option (List α)
  | 0, _, _ => none
  | k + 1, l, holeIndex =>
    if holeIndex > topIndex then
      match l[first + (holeIndex - 1) / 2]? with
      | none => none
      | some vp =>
        if comp vp value then
          (writeAt l (first + holeIndex) vp).bind
            (fun l1 => push_heap comp first topIndex value k l1 ((holeIndex - 1) / 2))
        else writeAt l (first + holeIndex) value
    else writeAt l (first + holeIndex) value

/-- The loop `while (secondChild < (len - 1) / 2)` of `__adjust_heap`; the argument
before the list bounds the number of steps.  The result is the list, `holeIndex`
and `secondChild`. -/
def sift {α : Type} (comp : α → α → Bool) (first len : Nat) :
    Nat → List α → Nat → Nat → Option (List α × Nat × Nat)
  | 0, _, _, _ => none
  | k + 1, l, holeIndex, secondChild =>
    if secondChild < (len - 1) / 2 then
      match l[first + 2 * (secondChild + 1)]?, l[first + (2 * (secondChild + 1) - 1)]? with
      | some v2, some v1 =>
        if comp v2 v1 then
          (writeAt l (first + holeIndex) v1).bind
            (fun l1 => sift comp first len k l1 (2 * (secondChild + 1) - 1)
              (2 * (secondChild + 1) - 1))
        else
          (writeAt l (first + holeIndex) v2).bind
            (fun l1 => sift comp first len k l1 (2 * (secondChild + 1))
              (2 * (secondChild + 1)))
      | _, _ => none
    else some (l, holeIndex, secondChild)

/-- The function `__adjust_heap(first, holeIndex, len, value, comp)`. -/
def adjust_heap {α : Type} (comp : α → α → Bool) (l : List α) (first holeIndex len : Nat)
    (value : α) : Option (List α) :=
  match sift comp first len (len + 1) l holeIndex holeIndex with
  | none => none
  | some (l1, hole1, second1) =>
    if len % 2 = 0 ∧ second1 = (len - 2) / 2 then
      match l1[first + (2 * (second1 + 1) - 1)]? with
      | none => none
      | some v =>
        (writeAt l1 (first + hole1) v).bind
          (fun l2 => push_heap comp first holeIndex value (len + 1) l2 (2 * (second1 + 1) - 1))
    else push_heap comp first holeIndex value (len + 1) l1 hole1

/-- The function `__pop_heap(first, last, result, comp)`. -/
def pop_heap {α : Type} (comp : α → α → Bool) (l : List α) (first last result : Nat) :
    Option (List α) :=
  match l[result]?, l[first]? with
  | some value, some vf =>
    (writeAt l result vf).bind (fun l1 => adjust_heap comp l1 first 0 (last - first) value)
  | _, _ => none

/-- The loop of `__make_heap`, from `parent` down to zero. -/
def make_heap_loop {α : Type} (comp : α → α → Bool) (first len : Nat) :
    Nat → List α → Option (List α)
  | 0, l =>
    match l[first]? with
    | none => none
    | some value => adjust_heap comp l first 0 len value
  | parent + 1, l =>
    match l[first + (parent + 1)]? with
    | none => none
    | some value =>
      (adjust_heap comp l first (parent + 1) len value).bind
        (make_heap_loop comp first len parent)

/-- The function `__make_heap(first, last, comp)`. -/
def make_heap {α : Type} (comp : α → α → Bool) (l : List α) (first last : Nat) :
    Option (List α) :=
  if last - first < 2 then some l
  else make_heap_loop comp first (last - first) ((last - first - 2) / 2) l

/-- The function `__heap_select(first, middle, last, comp)`. -/
def heap_select {α : Type} (comp : α → α → Bool) (l : List α) (first middle last : Nat) :
    Option (List α) :=
  (make_heap comp l first middle).bind
    (rangeLoop (fun i l1 => match l1[i]?, l1[first]? with
      | some vi, some vf => if comp vi vf then pop_heap comp l1 first middle i else some l1
      | _, _ => none) (last - middle) middle)

/-- The function `__sort_heap(first, last, comp)`; the argument before the list is
`last - first`. -/
def sort_heap {α : Type} (comp : α → α → Bool) (first : Nat) : Nat → List α → Option (List α)
  | 0, l => some l
  | n + 1, l =>
    if n + 1 > 1 then
      (pop_heap comp l first (first + n) (first + n)).bind (sort_heap comp first n)
    else some l

/-- The function `__partial_sort(first, middle, last, comp)`. -/
def heap_sort_range {α : Type} (comp : α → α → Bool) (l : List α) (first middle last : Nat) :
    Option (List α) :=
  (heap_select comp l first middle last).bind (sort_heap comp first (middle - first))

/-- The function `__introsort_loop(first, last, depth_limit, comp)`; the first
argument is `depth_limit`. -/
def introsort_loop {α : Type} (comp : α → α → Bool) :
    Nat → List α → Nat → Nat → Option (List α)
  | depth_limit, l, first, last =>
    if last - first > S_threshold then
      match depth_limit with
      | 0 => heap_sort_range comp l first last last
      | d + 1 =>
        match unguarded_partition_pivot comp l first last with
        | none => none
        | some (cut, l1) =>
          (introsort_loop comp d l1 cut last).bind (fun l2 => introsort_loop comp d l2 first cut)
    else some l

/-- The number of halvings that take `n` below two; the first argument bounds them. -/
def lgAux : Nat → Nat → Nat
  | 0, _ => 0
  | k + 1, n => if 2 ≤ n then lgAux k (n / 2) + 1 else 0

/-- The function `__lg(n)`: the position of the highest set bit of `n > 0`. -/
def lg (n : Nat) : Nat := lgAux n n

/-- The function `__sort(first, last, comp)` that `std::sort` calls, on the whole
list. -/
def sort {α : Type} (comp : α → α → Bool) (l : List α) : Option (List α) :=
  if l.length = 0 then some l
  else
    (introsort_loop comp (lg l.length * 2) l 0 l.length).bind
      (fun l1 => final_insertion_sort comp l1 0 l.length)

end Libstdcxx

/-- The function `std::sort` of libstdc++ as a value for `Env.stdSort`; should the
algorithm step outside the container, which it does not when the comparator is a
strict weak ordering, the list is given back as it was. -/
def libstdcxxSort (comp : DCMDate → DCMDate → Bool) (l : List DCMDate) : List DCMDate :=
  (Libstdcxx.sort comp l).getD l

/-! ## Predicates used in the statements -/

/-- The pixel the fill loop reads for plane `i` at `(x, y)`: pixel `(x, y, 0)` of the
slice entry `i` of the list points to. -/
def slicePixel (l : List DCMDate) (i x y : Nat) : Option Nat :=
  (l[i]?.bind (fun d => d.ptr)).bind (fun p => GetPixel p ⟨x, y, 0⟩)

/-- Plane `z = 0` of the slice has a pixel at every index of a `w` by `h` window. -/
def Readable (p : DCMImage) (w h : Nat) : Prop :=
  ∀ x y : Nat, x < w → y < h → (GetPixel p ⟨x, y, 0⟩).isSome = true

/-- A slice as the file reader delivers it: the region starts at index zero, the
pixel container holds one value per index of the region, and there is at least one
plane. -/
def Decoded (p : DCMImage) : Prop :=
  p.start = ⟨0, 0, 0⟩ ∧ p.buffer.length = p.size.x * p.size.y * p.size.z ∧ 0 < p.size.z

/-- The state of the fill loop once the indices in `S` have been copied: only the
pixel container of the allocated volume `a0` has changed, it has kept its length,
and every index in `S` holds the slice pixel it was given. -/
def FillInv (l : List DCMDate) (a0 : DCMImage) (S : Nat → Nat → Nat → Prop)
    (a : DCMImage) : Prop :=
  ∃ b, a = { a0 with buffer := b } ∧ b.length = a0.buffer.length ∧
    ∀ i x y, S i x y →
      b[x + y * a0.size.x + i * (a0.size.x * a0.size.y)]? = slicePixel l i x y

/-- The requirement `std::sort` puts on its comparator, restricted to the elements
being sorted: a strict weak ordering (irreflexive, transitive, with a transitive
incomparability). -/
def StrictWeakOn {α : Type} (comp : α → α → Bool) (l : List α) : Prop :=
  (∀ a ∈ l, comp a a = false) ∧
  (∀ a ∈ l, ∀ b ∈ l, ∀ c ∈ l, comp a b = true → comp b c = true → comp a c = true) ∧
  (∀ a ∈ l, ∀ b ∈ l, ∀ c ∈ l, comp a b = false → comp b a = false →
    comp b c = false → comp c b = false → comp a c = false ∧ comp c a = false)

/-- What the C++ standard promises of `std::sort`: when the comparator is a strict
weak ordering on the elements, the result is a rearrangement of the input in which
no element compares less than one before it.  Nothing is promised about the order
of elements that compare equivalent. -/
def StdSortContract (sort : (DCMDate → DCMDate → Bool) → List DCMDate → List DCMDate) :
    Prop :=
  ∀ comp l, StrictWeakOn comp l →
    (sort comp l).Perm l ∧ (sort comp l).Pairwise (fun a b => comp b a = false)

/-- Stability of a sort: for every key, the output lists the slices with that key in
the order the input lists them. -/
def KeepsTies (input output : List DCMDate) : Prop :=
  ∀ k : Double, output.filter (fun e => decide (e.date = k))
    = input.filter (fun e => decide (e.date = k))

/-! ## Reading the trace -/

/-- Whether an event is a line on the standard output. -/
def Event.isCout : Event → Bool
  | .cout _ => true
  | _ => false

/-- A trace without its standard-output lines. -/
def quiet (tr : List Event) : List Event :=
  tr.filter (fun e => !e.isCout)

/-- Whether an event belongs to the steps after the read loop: the sort, the
allocation or the call of the writer. -/
def Event.afterRead : Event → Bool
  | .sort _ => true
  | .allocate _ => true
  | .writerUpdate _ _ => true
  | _ => false

/-- The files the reader was run on, in order. -/
def readFiles (tr : List Event) : List String :=
  tr.filterMap (fun e => match e with
    | .readerUpdate f => some f
    | _ => none)

/-- The volumes the writer was called with, in order. -/
def writtenVolumes (tr : List Event) : List DCMImage :=
  tr.filterMap (fun e => match e with
    | .writerUpdate volume _ => some volume
    | _ => none)

/-- The message with which the read loop gives up on a file, if it does: the reader
throws, the dictionary has no entry `0008|0033`, or the entry is not a string. -/
def abortOf (env : Env) (file : String) : Option Cerr :=
  match env.readSlice file with
  | none => some (.readException file)
  | some im =>
    match im.dict.find? (fun e => e.1 == entry_id) with
    | none => some .tagNotFound
    | some (_, .other) => some .entryNotFound
    | some (_, .str _) => none

/-- The entry of `dcm_list` a file ends up with when the read loop runs to its end:
the key and the slice when the label lookup succeeds, the default-constructed
entry otherwise. -/
def entryOf (env : Env) (file : String) : DCMDate :=
  match env.readSlice file with
  | none => DCMDate.default env.uninitDate
  | some im =>
    match im.dict.find? (fun e => e.1 == entry_id) with
    | some (tagkey, .str tagvalue) =>
      match env.getLabelFromTag tagkey with
      | some _ => ⟨env.atof tagvalue, some im⟩
      | none => DCMDate.default env.uninitDate
    | _ => DCMDate.default env.uninitDate

/-- Two results of a loop agree: both are states related by `Rs`, or both are errors
related by `Re`. -/
def ExceptRel {ε σ : Type} (Re : ε → ε → Prop) (Rs : σ → σ → Prop) :
    Except ε σ → Except ε σ → Prop
  | .ok a, .ok b => Rs a b
  | .error a, .error b => Re a b
  | _, _ => False

/-- Two runs agree apart from the standard output. -/
def SameQuietRun (r1 r2 : Run) : Prop :=
  quiet r1.trace = quiet r2.trace ∧ r1.status = r2.status

/-- Two states of the read loop agree apart from the standard output. -/
def SameQuietState (s1 s2 : List Event × List DCMDate) : Prop :=
  quiet s1.1 = quiet s2.1 ∧ s1.2 = s2.2

/-! ## Two sorts that meet the contract -/

/-- An insertion sort that puts an element before the elements equivalent to it that
come later in the input. -/
def tiesFirstSort (comp : DCMDate → DCMDate → Bool) (l : List DCMDate) : List DCMDate :=
  l.insertionSort (fun a b => comp b a = false)

/-- An insertion sort that puts an element after the elements equivalent to it that
come later in the input. -/
def tiesLastSort (comp : DCMDate → DCMDate → Bool) (l : List DCMDate) : List DCMDate :=
  l.insertionSort (fun a b => comp a b = true)

/-! ## Example data -/

/-- A decoded 4 x 4 slice whose Content Time is `key` and whose pixels are
`base, base + 1, ..., base + 15` in raster order. -/
def exampleSlice (key : String) (base : Nat) : DCMImage :=
  { size := ⟨4, 4, 1⟩
    start := ⟨0, 0, 0⟩
    origin := ⟨.fin 0, .fin 0, .fin 0⟩
    spacing := ⟨.fin 1, .fin 1, .fin 1⟩
    buffer := (List.range 16).map (fun k => base + k)
    dict := [(entry_id, .str key)] }

/-- A decoded 8 x 8 slice whose Content Time is `key` and whose pixels are
`base, base + 1, ..., base + 63` in raster order, with a spacing of its own. -/
def exampleSlice8 (key : String) (base : Nat) : DCMImage :=
  { size := ⟨8, 8, 1⟩
    start := ⟨0, 0, 0⟩
    origin := ⟨.fin 0, .fin 0, .fin 0⟩
    spacing := ⟨.fin 2, .fin 2, .fin 1⟩
    buffer := (List.range 64).map (fun k => base + k)
    dict := [(entry_id, .str key)] }

/-- The values `atof` gives on the strings of the examples; a string with no
numeric beginning gives `0.0`. -/
def exampleAtof (s : String) : Double :=
  if s = "30.0" then .fin 30
  else if s = "10.0" then .fin 10
  else if s = "20.0" then .fin 20
  else .fin 0

/-- A folder with one series of three 4 x 4 slices, enumerated with the keys
30.0, 10.0 and 20.0; nothing throws. -/
def exampleEnv : Env :=
  { seriesUIDs := fun _ => ["1.2.840.1"]
    fileNames := fun _ _ => ["a.dcm", "b.dcm", "c.dcm"]
    readSlice := fun f =>
      if f = "a.dcm" then some (exampleSlice "30.0" 300)
      else if f = "b.dcm" then some (exampleSlice "10.0" 100)
      else if f = "c.dcm" then some (exampleSlice "20.0" 200)
      else none
    getLabelFromTag := fun _ => some "Content Time"
    atof := exampleAtof
    stdSort := tiesFirstSort
    uninitDate := .fin 0
    uninitPixel := 0
    allocateThrows := fun _ => false
    writerThrows := fun _ _ => false }

/-- The list the read loop builds in `exampleEnv`. -/
def exampleList : List DCMDate :=
  [⟨.fin 30, some (exampleSlice "30.0" 300)⟩,
   ⟨.fin 10, some (exampleSlice "10.0" 100)⟩,
   ⟨.fin 20, some (exampleSlice "20.0" 200)⟩]

/-- The files of a series of twenty slices. -/
def tieFiles : List String :=
  ["t00.dcm", "t01.dcm", "t02.dcm", "t03.dcm", "t04.dcm", "t05.dcm", "t06.dcm", "t07.dcm",
   "t08.dcm", "t09.dcm", "t10.dcm", "t11.dcm", "t12.dcm", "t13.dcm", "t14.dcm", "t15.dcm",
   "t16.dcm", "t17.dcm", "t18.dcm", "t19.dcm"]

/-- Twenty 4 x 4 slices with the same key 10.0; slice `k` has the pixels
`k, k + 1, ..., k + 15`. -/
def tieList : List DCMDate :=
  (List.range 20).map (fun k => ⟨.fin 10, some (exampleSlice "10.0" k)⟩)

/-- A folder with one series of the twenty slices of `tieList`, enumerated in that
order and sorted by the `std::sort` of libstdc++. -/
def tieEnv : Env :=
  { exampleEnv with
    fileNames := fun _ _ => tieFiles
    readSlice := fun f =>
      if tieFiles.indexOf f < 20 then some (exampleSlice "10.0" (tieFiles.indexOf f)) else none
    stdSort := libstdcxxSort }

/-- A folder in which the name generator finds no series. -/
def noSeriesEnv : Env :=
  { exampleEnv with
    seriesUIDs := fun _ => []
    fileNames := fun _ _ => [] }

/-- The example folder when `angio->Allocate()` throws. -/
def allocFailEnv : Env :=
  { exampleEnv with allocateThrows := fun _ => true }

/-- A folder with one 4 x 4 slice whose Content Time is the text `abc`. -/
def badKeyEnv : Env :=
  { exampleEnv with
    fileNames := fun _ _ => ["x.dcm"]
    readSlice := fun f => if f = "x.dcm" then some (exampleSlice "abc" 0) else none }

/-- The example folder in which the second slice has lost its dictionary. -/
def missingTagEnv : Env :=
  { exampleEnv with
    readSlice := fun f =>
      if f = "a.dcm" then some (exampleSlice "30.0" 300)
      else if f = "b.dcm" then some { exampleSlice "10.0" 100 with dict := [] }
      else if f = "c.dcm" then some (exampleSlice "20.0" 200)
      else none }

/-- A folder with one series of two slices: a 4 x 4 slice with key 10.0 and an 8 x 8
slice with key 20.0. -/
def mismatchEnv : Env :=
  { exampleEnv with
    fileNames := fun _ _ => ["s.dcm", "b.dcm"]
    readSlice := fun f =>
      if f = "s.dcm" then some (exampleSlice "10.0" 100)
      else if f = "b.dcm" then some (exampleSlice8 "20.0" 200)
      else none }

/-! ## Loops and pixel access -/

/-- A loop that keeps an invariant at every step runs to the end and establishes it. -/
theorem forLoop_inv {ε σ : Type} (I : Nat → σ → Prop) (n : Nat)
    (body : Nat → σ → Except ε σ) (s : σ) (h0 : I 0 s)
    (hstep : ∀ k t, k < n → I k t → ∃ t1, body k t = .ok t1 ∧ I (k + 1) t1) :
    ∃ t, forLoop n body s = .ok t ∧ I n t := by
  induction n with
  | zero => exact ⟨s, rfl, h0⟩
  | succ m ih =>
    obtain ⟨t, ht, hI⟩ := ih (fun k t hk hi => hstep k t (Nat.lt_succ_of_lt hk) hi)
    obtain ⟨t1, ht1, hI1⟩ := hstep m t (Nat.lt_succ_self m) hI
    exact ⟨t1, by simp [forLoop, ht, ht1], hI1⟩

/-- The raster offset of a non-negative index in an image whose region starts at zero. -/
theorem ComputeOffset_nat (a : DCMImage) (x y z : Nat) (h : a.start = ⟨0, 0, 0⟩) :
    ComputeOffset a ⟨x, y, z⟩ = ((x + y * a.size.x + z * (a.size.x * a.size.y) : Nat) : Int) := by
  simp [ComputeOffset, h]

theorem GetPixel_nat (a : DCMImage) (x y z : Nat) (h : a.start = ⟨0, 0, 0⟩) :
    GetPixel a ⟨x, y, z⟩ = a.buffer[x + y * a.size.x + z * (a.size.x * a.size.y)]? := by
  unfold GetPixel
  rw [ComputeOffset_nat a x y z h]
  generalize x + y * a.size.x + z * (a.size.x * a.size.y) = n
  simp

theorem SetPixel_nat (a : DCMImage) (x y z v : Nat) (h : a.start = ⟨0, 0, 0⟩)
    (hlt : x + y * a.size.x + z * (a.size.x * a.size.y) < a.buffer.length) :
    SetPixel a ⟨x, y, z⟩ v =
      some { a with buffer := a.buffer.set (x + y * a.size.x + z * (a.size.x * a.size.y)) v } := by
  unfold SetPixel
  rw [ComputeOffset_nat a x y z h]
  revert hlt
  generalize x + y * a.size.x + z * (a.size.x * a.size.y) = n
  intro hlt
  simp [hlt]

/-- Distinct in-range indices have distinct raster offsets. -/
theorem offset_inj (w h x y z x1 y1 z1 : Nat) (hx : x < w) (hx1 : x1 < w) (hy : y < h)
    (hy1 : y1 < h) (e : x + y * w + z * (w * h) = x1 + y1 * w + z1 * (w * h)) :
    x = x1 ∧ y = y1 ∧ z = z1 := by
  have key : ∀ m a b c d : Nat, a < m → c < m → a + m * b = c + m * d → a = c ∧ b = d := by
    intro m a b c d ha hc hab
    have h1 : (a + m * b) % m = (c + m * d) % m := by rw [hab]
    rw [Nat.add_mul_mod_self_left, Nat.add_mul_mod_self_left, Nat.mod_eq_of_lt ha,
      Nat.mod_eq_of_lt hc] at h1
    subst h1
    have hm : 0 < m := by omega
    exact ⟨rfl, Nat.eq_of_mul_eq_mul_left hm (Nat.add_left_cancel hab)⟩
  have e1 : x + w * (y + h * z) = x1 + w * (y1 + h * z1) := by
    have : x + w * (y + h * z) = x + y * w + z * (w * h) := by ring
    rw [this, e]; ring
  obtain ⟨hxx, e2⟩ := key w x _ x1 _ hx hx1 e1
  obtain ⟨hyy, hzz⟩ := key h y z y1 z1 hy hy1 e2
  exact ⟨hxx, hyy, hzz⟩

/-- An in-range index has an offset inside a container of `w * h * n` pixels. -/
theorem offset_lt (w h n x y z : Nat) (hx : x < w) (hy : y < h) (hz : z < n) :
    x + y * w + z * (w * h) < w * h * n := by
  have h1 : x + y * w + z * (w * h) < w * (y + h * z + 1) := by
    have : w * (y + h * z + 1) = y * w + z * (w * h) + w := by ring
    omega
  have h2 : y + h * z + 1 ≤ h * n := by
    have : h * (z + 1) ≤ h * n := Nat.mul_le_mul_left h hz
    have : h * (z + 1) = h * z + h := by ring
    omega
  calc x + y * w + z * (w * h) < w * (y + h * z + 1) := h1
    _ ≤ w * (h * n) := Nat.mul_le_mul_left w h2
    _ = w * h * n := by ring

/-! ## The fill loop -/

theorem FillInv.mono {l : List DCMDate} {a0 a : DCMImage} {S T : Nat → Nat → Nat → Prop}
    (hinv : FillInv l a0 S a) (hTS : ∀ i x y, T i x y → S i x y) : FillInv l a0 T a := by
  obtain ⟨b, hb, hlen, hpix⟩ := hinv
  exact ⟨b, hb, hlen, fun i x y ht => hpix i x y (hTS i x y ht)⟩

/-- One execution of line 249 succeeds and adds its index to the copied set. -/
theorem copyPixel_step (l : List DCMDate) (a0 a : DCMImage) (S : Nat → Nat → Nat → Prop)
    (i x y : Nat) (d : DCMDate) (p : DCMImage)
    (hstart : a0.start = ⟨0, 0, 0⟩)
    (hlen : a0.buffer.length = a0.size.x * a0.size.y * a0.size.z)
    (hS : ∀ i x y, S i x y → i < a0.size.z ∧ x < a0.size.x ∧ y < a0.size.y)
    (hi : i < a0.size.z) (hx : x < a0.size.x) (hy : y < a0.size.y)
    (hd : l[i]? = some d) (hp : d.ptr = some p) (hr : Readable p a0.size.x a0.size.y)
    (hinv : FillInv l a0 S a) :
    ∃ a1, copyPixel d.ptr i x y a = .ok a1 ∧
      FillInv l a0 (fun i1 x1 y1 => S i1 x1 y1 ∨ (i1 = i ∧ x1 = x ∧ y1 = y)) a1 := by
  obtain ⟨b, hb, hblen, hpix⟩ := hinv
  obtain ⟨v, hv⟩ := Option.isSome_iff_exists.mp (hr x y hx hy)
  have hoff : x + y * a0.size.x + i * (a0.size.x * a0.size.y) < b.length := by
    rw [hblen, hlen]; exact offset_lt _ _ _ _ _ _ hx hy hi
  have hset : SetPixel a ⟨x, y, i⟩ v =
      some { a0 with buffer := b.set (x + y * a0.size.x + i * (a0.size.x * a0.size.y)) v } := by
    have h1 := SetPixel_nat a x y i v (by rw [hb]; exact hstart) (by rw [hb]; exact hoff)
    rw [h1, hb]
  refine ⟨{ a0 with buffer := b.set (x + y * a0.size.x + i * (a0.size.x * a0.size.y)) v },
    by simp [copyPixel, hp, hv, hset],
    b.set (x + y * a0.size.x + i * (a0.size.x * a0.size.y)) v, rfl, by simp [hblen], ?_⟩
  intro i1 x1 y1 h1
  have hsp : slicePixel l i x y = some v := by simp [slicePixel, hd, hp, hv]
  rw [List.getElem?_set]
  split
  · next heq =>
    have hin : i1 < a0.size.z ∧ x1 < a0.size.x ∧ y1 < a0.size.y := by
      rcases h1 with h1 | ⟨rfl, rfl, rfl⟩
      · exact hS _ _ _ h1
      · exact ⟨hi, hx, hy⟩
    obtain ⟨rfl, rfl, rfl⟩ := offset_inj _ _ _ _ _ _ _ _ hx hin.2.1 hy hin.2.2 heq
    simp [hoff, hsp]
  · next hne =>
    rcases h1 with h1 | ⟨rfl, rfl, rfl⟩
    · exact hpix _ _ _ h1
    · exact absurd rfl hne

/-- The loop over `y` copies one column of one plane. -/
theorem fillColumn_spec (l : List DCMDate) (a0 a : DCMImage) (S : Nat → Nat → Nat → Prop)
    (i x : Nat) (d : DCMDate) (p : DCMImage)
    (hstart : a0.start = ⟨0, 0, 0⟩)
    (hlen : a0.buffer.length = a0.size.x * a0.size.y * a0.size.z)
    (hS : ∀ i x y, S i x y → i < a0.size.z ∧ x < a0.size.x ∧ y < a0.size.y)
    (hi : i < a0.size.z) (hx : x < a0.size.x)
    (hd : l[i]? = some d) (hp : d.ptr = some p) (hr : Readable p a0.size.x a0.size.y)
    (hinv : FillInv l a0 S a) :
    ∃ a1, forLoop a0.size.y (fun y b => copyPixel d.ptr i x y b) a = .ok a1 ∧
      FillInv l a0 (fun i1 x1 y1 => S i1 x1 y1 ∨ (i1 = i ∧ x1 = x ∧ y1 < a0.size.y)) a1 := by
  apply forLoop_inv
    (fun k b => FillInv l a0 (fun i1 x1 y1 => S i1 x1 y1 ∨ (i1 = i ∧ x1 = x ∧ y1 < k)) b)
  · exact hinv.mono (by rintro i1 x1 y1 (h | ⟨_, _, h⟩); exact h; omega)
  · intro k t hk ht
    obtain ⟨a1, h1, h2⟩ := copyPixel_step l a0 t _ i x k d p hstart hlen
      (by rintro i1 x1 y1 (h | ⟨rfl, rfl, h⟩); exact hS _ _ _ h; exact ⟨hi, hx, by omega⟩)
      hi hx hk hd hp hr ht
    refine ⟨a1, h1, h2.mono ?_⟩
    rintro i1 x1 y1 (h | ⟨h1, h2, h3⟩)
    · exact Or.inl (Or.inl h)
    · rcases Nat.lt_succ_iff_lt_or_eq.mp h3 with h4 | h4
      · exact Or.inl (Or.inr ⟨h1, h2, h4⟩)
      · exact Or.inr ⟨h1, h2, h4⟩

/-- The loops over `x` and `y` copy one plane. -/
theorem fillPlane_spec (l : List DCMDate) (a0 a : DCMImage) (S : Nat → Nat → Nat → Prop)
    (i : Nat) (d : DCMDate) (p : DCMImage)
    (hstart : a0.start = ⟨0, 0, 0⟩)
    (hlen : a0.buffer.length = a0.size.x * a0.size.y * a0.size.z)
    (hS : ∀ i x y, S i x y → i < a0.size.z ∧ x < a0.size.x ∧ y < a0.size.y)
    (hi : i < a0.size.z)
    (hd : l[i]? = some d) (hp : d.ptr = some p) (hr : Readable p a0.size.x a0.size.y)
    (hinv : FillInv l a0 S a) :
    ∃ a1, fillPlane l a0.size i a = .ok a1 ∧
      FillInv l a0
        (fun i1 x1 y1 => S i1 x1 y1 ∨ (i1 = i ∧ x1 < a0.size.x ∧ y1 < a0.size.y)) a1 := by
  unfold fillPlane
  rw [hd]
  apply forLoop_inv
    (fun k b => FillInv l a0
      (fun i1 x1 y1 => S i1 x1 y1 ∨ (i1 = i ∧ x1 < k ∧ y1 < a0.size.y)) b)
  · exact hinv.mono (by rintro i1 x1 y1 (h | ⟨_, h, _⟩); exact h; omega)
  · intro k t hk ht
    obtain ⟨a1, h1, h2⟩ := fillColumn_spec l a0 t _ i k d p hstart hlen
      (by rintro i1 x1 y1 (h | ⟨rfl, h, h3⟩); exact hS _ _ _ h; exact ⟨hi, by omega, h3⟩)
      hi hk hd hp hr ht
    refine ⟨a1, h1, h2.mono ?_⟩
    rintro i1 x1 y1 (h | ⟨h1, h2, h3⟩)
    · exact Or.inl (Or.inl h)
    · rcases Nat.lt_succ_iff_lt_or_eq.mp h2 with h4 | h4
      · exact Or.inl (Or.inr ⟨h1, h4, h3⟩)
      · exact Or.inr ⟨h1, h4, h3⟩

/-- The fill loop, lines 238-252: on an allocated volume whose region starts at zero,
with a readable slice behind each of the first `size.z` entries, the loop ends
normally, changes only the pixel container, and every pixel `(x, y, i)` of the
volume is pixel `(x, y, 0)` of slice `i`. -/
theorem fillVolume_spec (l : List DCMDate) (a0 : DCMImage)
    (hstart : a0.start = ⟨0, 0, 0⟩)
    (hlen : a0.buffer.length = a0.size.x * a0.size.y * a0.size.z)
    (hread : ∀ i, i < a0.size.z →
      ∃ d p, l[i]? = some d ∧ d.ptr = some p ∧ Readable p a0.size.x a0.size.y) :
    ∃ a, fillVolume l a0 = .ok a ∧ a.size = a0.size ∧ a.start = a0.start ∧
      a.origin = a0.origin ∧ a.spacing = a0.spacing ∧
      a.buffer.length = a0.buffer.length ∧
      ∀ i x y : Nat, i < a0.size.z → x < a0.size.x → y < a0.size.y →
        GetPixel a ⟨x, y, i⟩ = slicePixel l i x y ∧ (slicePixel l i x y).isSome = true := by
  have hloop : ∃ a, fillVolume l a0 = .ok a ∧
      FillInv l a0 (fun i1 x1 y1 => i1 < a0.size.z ∧ x1 < a0.size.x ∧ y1 < a0.size.y) a := by
    unfold fillVolume
    apply forLoop_inv
      (fun k b => FillInv l a0 (fun i1 x1 y1 => i1 < k ∧ x1 < a0.size.x ∧ y1 < a0.size.y) b)
    · exact ⟨a0.buffer, rfl, rfl, by rintro i x y ⟨h, _, _⟩; omega⟩
    · intro k t hk ht
      obtain ⟨d, p, hd, hp, hr⟩ := hread k hk
      obtain ⟨a1, h1, h2⟩ := fillPlane_spec l a0 t _ k d p hstart hlen
        (by rintro i1 x1 y1 ⟨h, h2, h3⟩; exact ⟨by omega, h2, h3⟩) hk hd hp hr ht
      refine ⟨a1, h1, h2.mono ?_⟩
      rintro i1 x1 y1 ⟨h1, h2, h3⟩
      rcases Nat.lt_succ_iff_lt_or_eq.mp h1 with h4 | h4
      · exact Or.inl ⟨h4, h2, h3⟩
      · exact Or.inr ⟨h4, h2, h3⟩
  obtain ⟨a, ha, b, hb, hblen, hpix⟩ := hloop
  refine ⟨a, ha, by rw [hb], by rw [hb], by rw [hb], by rw [hb], by rw [hb]; exact hblen, ?_⟩
  intro i x y hi hx hy
  have h1 := GetPixel_nat a x y i (by rw [hb]; exact hstart)
  rw [hb] at h1
  simp only at h1
  rw [hb, h1, hpix i x y ⟨hi, hx, hy⟩]
  refine ⟨rfl, ?_⟩
  obtain ⟨d, p, hd, hp, hr⟩ := hread i hi
  simpa [slicePixel, hd, hp] using hr x y hx hy

/-! ## The comparator and `std::sort` -/

theorem Double.lt_irrefl (a : Double) : Double.lt a a = false := by
  cases a <;> simp [Double.lt]

theorem Double.lt_trans {a b c : Double} (hab : Double.lt a b = true)
    (hbc : Double.lt b c = true) : Double.lt a c = true := by
  cases a <;> cases b <;> cases c <;> simp_all [Double.lt]
  exact hab.trans hbc

theorem Double.lt_asymm {a b : Double} (hab : Double.lt a b = true) :
    Double.lt b a = false := by
  cases a <;> cases b <;> simp_all [Double.lt]
  exact le_of_lt hab

/-- Two numbers neither of which is less than the other are equal. -/
theorem Double.eq_of_not_lt {a b : Double} (ha : a ≠ .nan) (hb : b ≠ .nan)
    (hab : Double.lt a b = false) (hba : Double.lt b a = false) : a = b := by
  cases a <;> cases b <;> simp_all [Double.lt]
  exact le_antisymm hba hab

/-- On slices whose keys are numbers the comparator is a strict weak ordering. -/
theorem sortByAcquisitionDate_strictWeakOn (l : List DCMDate)
    (hnum : ∀ d ∈ l, d.date ≠ .nan) : StrictWeakOn sortByAcquisitionDate l := by
  refine ⟨fun a _ => Double.lt_irrefl _, fun a _ b _ c _ => Double.lt_trans, ?_⟩
  intro a ha b hb c hc h1 h2 h3 h4
  have e1 : a.date = b.date := Double.eq_of_not_lt (hnum a ha) (hnum b hb) h1 h2
  have e2 : b.date = c.date := Double.eq_of_not_lt (hnum b hb) (hnum c hc) h3 h4
  simp [sortByAcquisitionDate, e1, e2, Double.lt_irrefl]

/-- Inserting into an ordered list keeps it ordered, as long as the insertion test
`r` agrees with the order `le` on the elements at hand. -/
theorem pairwise_orderedInsert_of {α : Type} (r : α → α → Prop) [DecidableRel r]
    (le : α → α → Prop) (M : α → Prop)
    (h1 : ∀ a b, M a → M b → r a b → le a b)
    (h2 : ∀ a b, M a → M b → ¬ r a b → le b a)
    (h3 : ∀ a b c, M a → M b → M c → le a b → le b c → le a c)
    (a : α) (ha : M a) (t : List α) (ht : ∀ x ∈ t, M x) (hs : t.Pairwise le) :
    (t.orderedInsert r a).Pairwise le := by
  induction t with
  | nil => simp
  | cons b t ih =>
    have hb : M b := ht b (List.mem_cons_self b t)
    have htt : ∀ x ∈ t, M x := fun x hx => ht x (List.mem_cons_of_mem b hx)
    rw [List.pairwise_cons] at hs
    by_cases hr : r a b
    · rw [List.orderedInsert, if_pos hr]
      refine List.pairwise_cons.mpr ⟨?_, List.pairwise_cons.mpr hs⟩
      intro x hx
      rcases List.mem_cons.mp hx with rfl | hx
      · exact h1 a x ha hb hr
      · exact h3 a b x ha hb (htt x hx) (h1 a b ha hb hr) (hs.1 x hx)
    · rw [List.orderedInsert, if_neg hr]
      refine List.pairwise_cons.mpr ⟨?_, ih htt hs.2⟩
      intro x hx
      rcases List.mem_cons.mp ((List.perm_orderedInsert r a t).mem_iff.mp hx) with rfl | hx
      · exact h2 x b ha hb hr
      · exact hs.1 x hx

theorem pairwise_insertionSort_of {α : Type} (r : α → α → Prop) [DecidableRel r]
    (le : α → α → Prop) (M : α → Prop)
    (h1 : ∀ a b, M a → M b → r a b → le a b)
    (h2 : ∀ a b, M a → M b → ¬ r a b → le b a)
    (h3 : ∀ a b c, M a → M b → M c → le a b → le b c → le a c)
    (l : List α) (hl : ∀ x ∈ l, M x) : (l.insertionSort r).Pairwise le := by
  induction l with
  | nil => simp
  | cons a l ih =>
    have hll : ∀ x ∈ l, M x := fun x hx => hl x (List.mem_cons_of_mem a hx)
    rw [List.insertionSort]
    exact pairwise_orderedInsert_of r le M h1 h2 h3 a (hl a (List.mem_cons_self a l)) _
      (fun x hx => hll x ((List.perm_insertionSort r l).mem_iff.mp hx)) (ih hll)

/-- In a strict weak ordering `a < b` excludes `b < a`. -/
theorem StrictWeakOn.asymm {α : Type} {comp : α → α → Bool} {l : List α}
    (h : StrictWeakOn comp l) {a b : α} (ha : a ∈ l) (hb : b ∈ l)
    (hab : comp a b = true) : comp b a = false := by
  by_contra hba
  have hba1 : comp b a = true := by simpa using hba
  have := h.2.1 a ha b hb a ha hab hba1
  rw [h.1 a ha] at this
  exact Bool.false_ne_true this

/-- In a strict weak ordering "not greater than" is transitive. -/
theorem StrictWeakOn.le_trans {α : Type} {comp : α → α → Bool} {l : List α}
    (h : StrictWeakOn comp l) {a b c : α} (ha : a ∈ l) (hb : b ∈ l) (hc : c ∈ l)
    (hab : comp b a = false) (hbc : comp c b = false) : comp c a = false := by
  by_contra hca
  have hca1 : comp c a = true := by simpa using hca
  have hab1 : comp a b = false := by
    by_contra hx
    have hx1 : comp a b = true := by simpa using hx
    have := h.2.1 c hc a ha b hb hca1 hx1
    rw [hbc] at this
    exact Bool.false_ne_true this
  have hbc1 : comp b c = false := by
    by_contra hx
    have hx1 : comp b c = true := by simpa using hx
    have := h.2.1 b hb c hc a ha hx1 hca1
    rw [hab] at this
    exact Bool.false_ne_true this
  have := (h.2.2 a ha b hb c hc hab1 hab hbc1 hbc).2
  rw [hca1] at this
  exact Bool.false_ne_true this.symm

/-- The insertion sort that keeps ties in input order meets the contract of `std::sort`. -/
theorem tiesFirstSort_contract : StdSortContract tiesFirstSort := by
  intro comp l h
  refine ⟨List.perm_insertionSort _ l, ?_⟩
  apply pairwise_insertionSort_of (fun a b => comp b a = false) (fun a b => comp b a = false)
    (fun x => x ∈ l)
  · intro a b _ _ hr; exact hr
  · intro a b ha hb hr
    exact h.asymm hb ha (by simpa using hr)
  · intro a b c ha hb hc hab hbc; exact h.le_trans ha hb hc hab hbc
  · intro x hx; exact hx

/-- The insertion sort that reverses ties meets the contract of `std::sort` as well. -/
theorem tiesLastSort_contract : StdSortContract tiesLastSort := by
  intro comp l h
  refine ⟨List.perm_insertionSort _ l, ?_⟩
  apply pairwise_insertionSort_of (fun a b => comp a b = true) (fun a b => comp b a = false)
    (fun x => x ∈ l)
  · intro a b ha hb hr; exact h.asymm ha hb hr
  · intro a b _ _ hr; simpa using hr
  · intro a b c ha hb hc hab hbc; exact h.le_trans ha hb hc hab hbc
  · intro x hx; exact hx

/-! ## Building the volume -/

/-- A decoded slice can be read on every window that fits inside its plane. -/
theorem Decoded.readable {p : DCMImage} (hp : Decoded p) {w h : Nat} (hw : w ≤ p.size.x)
    (hh : h ≤ p.size.y) : Readable p w h := by
  intro x y hx hy
  have h1 := GetPixel_nat p x y 0 hp.1
  have h2 := offset_lt p.size.x p.size.y p.size.z x y 0 (by omega) (by omega) hp.2.2
  rw [← hp.2.1] at h2
  have h3 : GetPixel p ⟨x, y, 0⟩ = p.buffer[x + y * p.size.x + 0 * (p.size.x * p.size.y)]? := h1
  rw [h3, List.getElem?_eq_getElem h2]
  rfl

/-- Lines 211-252 on a list whose sorted form starts with a slice `p0` and holds only
decoded slices at least as large in the plane as `p0`: when the allocation does not
throw, the steps are the sort and the allocation, the volume has the in-plane size,
origin and spacing of `p0`, one plane per entry, and pixel `(x, y, i)` of the volume
is pixel `(x, y, 0)` of the slice of sorted entry `i`. -/
theorem buildVolume_spec (env : Env) (dcm_list : List DCMDate) (d0 : DCMDate)
    (rest : List DCMDate) (p0 : DCMImage)
    (hs : env.stdSort sortByAcquisitionDate dcm_list = d0 :: rest)
    (hp0 : d0.ptr = some p0)
    (hall : ∀ d ∈ d0 :: rest, ∃ p, d.ptr = some p ∧ Decoded p ∧
      p0.size.x ≤ p.size.x ∧ p0.size.y ≤ p.size.y)
    (halloc : env.allocateThrows ⟨p0.size.x, p0.size.y, rest.length + 1⟩ = false) :
    ∃ angio, buildVolume env dcm_list =
        ([.sort (d0 :: rest), .allocate ⟨p0.size.x, p0.size.y, rest.length + 1⟩],
          .ok angio) ∧
      angio.size = ⟨p0.size.x, p0.size.y, rest.length + 1⟩ ∧
      angio.start = ⟨0, 0, 0⟩ ∧ angio.origin = p0.origin ∧ angio.spacing = p0.spacing ∧
      ∀ i x y : Nat, i < rest.length + 1 → x < p0.size.x → y < p0.size.y →
        GetPixel angio ⟨x, y, i⟩ = slicePixel (d0 :: rest) i x y ∧
        (slicePixel (d0 :: rest) i x y).isSome = true := by
  have hfill := fillVolume_spec (d0 :: rest)
    { size := ⟨p0.size.x, p0.size.y, rest.length + 1⟩, start := ⟨0, 0, 0⟩,
      origin := p0.origin, spacing := p0.spacing,
      buffer := List.replicate (p0.size.x * p0.size.y * (rest.length + 1)) env.uninitPixel,
      dict := [] } rfl (by simp) (by
        intro i hi
        have hi1 : i < (d0 :: rest).length := by simpa using hi
        obtain ⟨p, hp, hdec, hw, hh⟩ := hall _ (List.getElem_mem hi1)
        exact ⟨_, p, List.getElem?_eq_getElem hi1, hp, hdec.readable hw hh⟩)
  obtain ⟨a, ha, hsize, hstart, horigin, hspacing, _, hpix⟩ := hfill
  refine ⟨a, ?_, hsize, hstart, horigin, hspacing, hpix⟩
  simp only [buildVolume, hs, volumeHeader, hp0, allocate, List.length_cons, halloc]
  simp [ha]

/-- In a list in strictly ascending key order, entry `i` has exactly `i` entries with
a smaller key. -/
theorem countP_lt_of_pairwise (s : List DCMDate)
    (hs : s.Pairwise (fun a b => sortByAcquisitionDate a b = true)) (i : Nat) (d : DCMDate)
    (hd : s[i]? = some d) : s.countP (fun e => sortByAcquisitionDate e d) = i := by
  induction s generalizing i with
  | nil => simp at hd
  | cons a t ih =>
    rw [List.pairwise_cons] at hs
    cases i with
    | zero =>
      simp only [List.getElem?_cons_zero, Option.some.injEq] at hd
      subst hd
      rw [List.countP_cons, List.countP_eq_zero.mpr]
      · simp [sortByAcquisitionDate, Double.lt_irrefl]
      · intro x hx
        have := Double.lt_asymm (hs.1 x hx)
        simpa [sortByAcquisitionDate] using this
    | succ j =>
      simp only [List.getElem?_cons_succ] at hd
      have hmem : d ∈ t := List.mem_iff_getElem?.mpr ⟨j, hd⟩
      rw [List.countP_cons, ih hs.2 j hd]
      simp [hs.1 d hmem]

/-- Under the contract of `std::sort`, numeric and pairwise distinct keys come out in
strictly ascending order. -/
theorem stdSort_strict (sort : (DCMDate → DCMDate → Bool) → List DCMDate → List DCMDate)
    (hsort : StdSortContract sort) (l : List DCMDate)
    (hnum : ∀ d ∈ l, d.date ≠ .nan) (hdistinct : (l.map (fun d => d.date)).Nodup) :
    (sort sortByAcquisitionDate l).Perm l ∧
      (sort sortByAcquisitionDate l).Pairwise (fun a b => sortByAcquisitionDate a b = true) := by
  obtain ⟨hperm, hpw⟩ := hsort sortByAcquisitionDate l (sortByAcquisitionDate_strictWeakOn l hnum)
  refine ⟨hperm, ?_⟩
  have hnd : (sort sortByAcquisitionDate l).Pairwise (fun a b => a.date ≠ b.date) := by
    have := (hperm.map (fun d => d.date)).nodup_iff.mpr hdistinct
    exact List.pairwise_map.mp this
  refine (hpw.and hnd).imp_of_mem ?_
  intro a b ha hb hab
  by_contra hlt
  have hlt1 : Double.lt a.date b.date = false := by simpa [sortByAcquisitionDate] using hlt
  exact hab.2 (Double.eq_of_not_lt (hnum a (hperm.mem_iff.mp ha)) (hnum b (hperm.mem_iff.mp hb))
    hlt1 hab.1)

/-! ## The read loop -/

/-- A loop whose steps either keep the invariant `I` or stop with an error in `Q`
ends with the invariant or with an error in `Q`. -/
theorem forLoop_inv_err {ε σ : Type} (I : Nat → σ → Prop) (Q : ε → Prop) (n : Nat)
    (body : Nat → σ → Except ε σ) (s : σ) (h0 : I 0 s)
    (hstep : ∀ k t, k < n → I k t →
      (∃ t1, body k t = .ok t1 ∧ I (k + 1) t1) ∨ (∃ e, body k t = .error e ∧ Q e)) :
    (∃ t, forLoop n body s = .ok t ∧ I n t) ∨ (∃ e, forLoop n body s = .error e ∧ Q e) := by
  induction n with
  | zero => exact Or.inl ⟨s, rfl, h0⟩
  | succ m ih =>
    rcases ih (fun k t hk hi => hstep k t (Nat.lt_succ_of_lt hk) hi) with
      ⟨t, ht, hI⟩ | ⟨e, he, hQ⟩
    · rcases hstep m t (Nat.lt_succ_self m) hI with ⟨t1, ht1, hI1⟩ | ⟨e, he, hQ⟩
      · exact Or.inl ⟨t1, by simp [forLoop, ht, ht1], hI1⟩
      · exact Or.inr ⟨e, by simp [forLoop, ht, he], hQ⟩
    · exact Or.inr ⟨e, by simp [forLoop, he], hQ⟩

/-- The read-loop body on a file the loop gives up on: the run ends with
`EXIT_FAILURE` right after the message. -/
theorem readBody_abort (env : Env) (verbose : Bool) (fileNames : List String) (i : Nat)
    (file : String) (msg : Cerr) (st : List Event × List DCMDate)
    (hf : fileNames[i]? = some file) (hab : abortOf env file = some msg) :
    readBody env verbose fileNames i st =
      .error ⟨st.1 ++ ((if verbose then [Event.cout (.fileName file)] else [])
        ++ [.readerUpdate file, .cerr msg]), .failure⟩ := by
  unfold abortOf at hab
  cases hr : env.readSlice file with
  | none =>
    rw [hr] at hab
    simp only [Option.some.injEq] at hab
    subst hab
    cases verbose <;> simp [readBody, hf, hr]
  | some im =>
    rw [hr] at hab
    simp only at hab
    cases hfind : im.dict.find? (fun e => e.1 == entry_id) with
    | none =>
      rw [hfind] at hab
      simp only [Option.some.injEq] at hab
      subst hab
      cases verbose <;> simp [readBody, hf, hr, hfind]
    | some e =>
      obtain ⟨tagkey, obj⟩ := e
      rw [hfind] at hab
      cases obj with
      | other =>
        simp only [Option.some.injEq] at hab
        subst hab
        cases verbose <;> simp [readBody, hf, hr, hfind]
      | str v => simp at hab

/-- The read-loop body on a file the loop does not give up on: it goes on, having run
the reader on that file only, and entry `i` of the list becomes the entry of the file
while the others stay. -/
theorem readBody_ok (env : Env) (verbose : Bool) (fileNames : List String) (i : Nat)
    (file : String) (st : List Event × List DCMDate)
    (hf : fileNames[i]? = some file) (hab : abortOf env file = none)
    (hi : st.2[i]? = some (DCMDate.default env.uninitDate)) :
    ∃ ev l, readBody env verbose fileNames i st = .ok (st.1 ++ ev, l) ∧
      (∀ e ∈ ev, e.afterRead = false) ∧ readFiles ev = [file] ∧
      l.length = st.2.length ∧ l[i]? = some (entryOf env file) ∧
      ∀ j, j ≠ i → l[j]? = st.2[j]? := by
  have hlt : i < st.2.length := by
    by_contra hge
    rw [List.getElem?_eq_none (by omega)] at hi
    exact Option.noConfusion hi
  unfold abortOf at hab
  cases hr : env.readSlice file with
  | none => rw [hr] at hab; simp at hab
  | some im =>
    rw [hr] at hab
    simp only at hab
    cases hfind : im.dict.find? (fun e => e.1 == entry_id) with
    | none => rw [hfind] at hab; simp at hab
    | some e =>
      obtain ⟨tagkey, obj⟩ := e
      rw [hfind] at hab
      cases obj with
      | other => simp at hab
      | str v =>
        cases hl : env.getLabelFromTag tagkey with
        | none =>
          refine ⟨(if verbose then [Event.cout (.fileName file)] else [])
            ++ [.readerUpdate file], st.2, ?_, ?_, ?_, rfl, ?_, fun j _ => rfl⟩
          · cases verbose <;> simp [readBody, hf, hr, hfind, hl]
          · cases verbose <;> simp [Event.afterRead]
          · cases verbose <;> simp [readFiles]
          · simp [entryOf, hr, hfind, hl, hi]
        | some label =>
          refine ⟨(if verbose then [Event.cout (.fileName file)] else [])
            ++ [.readerUpdate file]
            ++ (if verbose then [Event.cout (.tagValue tagkey label (env.atof v))] else []),
            st.2.set i ⟨env.atof v, some im⟩, ?_, ?_, ?_, by simp, ?_, ?_⟩
          · cases verbose <;> simp [readBody, hf, hr, hfind, hl]
          · cases verbose <;> simp [Event.afterRead]
          · cases verbose <;> simp [readFiles]
          · simp [entryOf, hr, hfind, hl, List.getElem?_set, hlt]
          · intro j hj
            rw [List.getElem?_set, if_neg (Ne.symm hj)]

theorem readFiles_append (a b : List Event) : readFiles (a ++ b) = readFiles a ++ readFiles b := by
  simp [readFiles, List.filterMap_append]

/-- The read loop, lines 162-209.  Either no file makes the loop give up, and the
loop ends with the entry of every file in enumeration order; or the loop stops at
the first file that makes it give up, with `EXIT_FAILURE`, the message of that file
being the last event.  In both cases the reader has been run on the files up to
that point only, and no later step has run. -/
theorem readLoop_cases (env : Env) (verbose : Bool) (fileNames : List String)
    (tr0 : List Event) :
    (∃ ev, readLoop env verbose fileNames tr0 =
        .ok (tr0 ++ ev, fileNames.map (entryOf env)) ∧
      (∀ g ∈ fileNames, abortOf env g = none) ∧
      (∀ e ∈ ev, e.afterRead = false) ∧ readFiles ev = fileNames) ∨
    (∃ j g msg ev, fileNames[j]? = some g ∧ abortOf env g = some msg ∧
      (∀ m g1, m < j → fileNames[m]? = some g1 → abortOf env g1 = none) ∧
      readLoop env verbose fileNames tr0 = .error ⟨tr0 ++ ev, .failure⟩ ∧
      (∀ e ∈ ev, e.afterRead = false) ∧ readFiles ev = fileNames.take (j + 1) ∧
      ev.getLast? = some (.cerr msg)) := by
  have key := forLoop_inv_err
    (fun k (st : List Event × List DCMDate) => ∃ ev, st.1 = tr0 ++ ev ∧
      (∀ e ∈ ev, e.afterRead = false) ∧ readFiles ev = fileNames.take k ∧
      st.2.length = fileNames.length ∧
      (∀ m g, m < k → fileNames[m]? = some g →
        abortOf env g = none ∧ st.2[m]? = some (entryOf env g)) ∧
      (∀ m, k ≤ m → m < fileNames.length →
        st.2[m]? = some (DCMDate.default env.uninitDate)))
    (fun r : Run => ∃ j g msg ev, fileNames[j]? = some g ∧ abortOf env g = some msg ∧
      (∀ m g1, m < j → fileNames[m]? = some g1 → abortOf env g1 = none) ∧
      r = ⟨tr0 ++ ev, .failure⟩ ∧
      (∀ e ∈ ev, e.afterRead = false) ∧ readFiles ev = fileNames.take (j + 1) ∧
      ev.getLast? = some (.cerr msg))
    fileNames.length (readBody env verbose fileNames)
    (tr0, List.replicate fileNames.length (DCMDate.default env.uninitDate))
    ⟨[], by simp, by simp, by simp [readFiles], by simp, by intro m g hm; omega, by
      intro m _ hm
      simp [List.getElem?_replicate, hm]⟩
    (by
      rintro k ⟨tr, l⟩ hk ⟨ev, htr, hev, hfiles, hlen, hdone, htodo⟩
      simp only at htr hlen hdone htodo
      have hf : fileNames[k]? = some fileNames[k] := List.getElem?_eq_getElem hk
      cases hab : abortOf env fileNames[k] with
      | some msg =>
        right
        refine ⟨_, readBody_abort env verbose fileNames k _ msg (tr, l) hf hab, k, _, msg,
          ev ++ ((if verbose then [Event.cout (.fileName fileNames[k])] else [])
            ++ [.readerUpdate fileNames[k], .cerr msg]), hf, hab,
          fun m g1 hm hg => (hdone m g1 hm hg).1, by simp [htr], ?_, ?_, by simp⟩
        · intro e he
          rcases List.mem_append.mp he with he | he
          · exact hev e he
          · have hnew : ∀ e ∈ (if verbose then [Event.cout (.fileName fileNames[k])] else [])
                ++ [.readerUpdate fileNames[k], .cerr msg], e.afterRead = false := by
              cases verbose <;> simp [Event.afterRead]
            exact hnew e he
        · rw [readFiles_append, hfiles, List.take_succ, hf]
          cases verbose <;> simp [readFiles]
      | none =>
        left
        obtain ⟨ev1, l1, hbody, hev1, hfiles1, hlen1, hk1, hother⟩ :=
          readBody_ok env verbose fileNames k _ (tr, l) hf hab (htodo k (le_refl k) hk)
        refine ⟨_, hbody, ev ++ ev1, by simp [htr], ?_, ?_, by rw [hlen1]; exact hlen, ?_, ?_⟩
        · intro e he
          rcases List.mem_append.mp he with he | he
          · exact hev e he
          · exact hev1 e he
        · rw [readFiles_append, hfiles, hfiles1, List.take_succ, hf]
          rfl
        · intro m g hm hg
          rcases Nat.lt_succ_iff_lt_or_eq.mp hm with hm1 | hm1
          · have := hdone m g hm1 hg
            exact ⟨this.1, by rw [hother m (by omega)]; exact this.2⟩
          · subst hm1
            rw [hf] at hg
            cases hg
            exact ⟨hab, hk1⟩
        · intro m hm1 hm2
          rw [hother m (by omega)]
          exact htodo m (by omega) hm2)
  rcases key with ⟨⟨tr, l⟩, hloop, ev, htr, hev, hfiles, hlen, hdone, _⟩ | ⟨r, hloop, j, g, msg, ev,
    hj, hab, hfirst, hr, hev, hfiles, hlast⟩
  · left
    simp only at htr hlen hdone
    have hl : l = fileNames.map (entryOf env) := by
      apply List.ext_getElem?
      intro m
      by_cases hm : m < fileNames.length
      · rw [(hdone m _ hm (List.getElem?_eq_getElem hm)).2]
        simp [List.getElem?_eq_getElem hm]
      · rw [List.getElem?_eq_none (by omega), List.getElem?_eq_none (by simp; omega)]
    refine ⟨ev, by rw [readLoop, hloop, htr, hl], ?_, hev, by simpa using hfiles⟩
    intro g hg
    obtain ⟨m, hm⟩ := List.mem_iff_getElem?.mp hg
    have hlt : m < fileNames.length := by
      by_contra hge
      rw [List.getElem?_eq_none (by omega)] at hm
      exact Option.noConfusion hm
    exact (hdone m g hlt hm).1
  · right
    exact ⟨j, g, msg, ev, hj, hab, hfirst, by rw [readLoop, hloop, hr], hev, hfiles, hlast⟩

/-! ## The claims -/

/-- C1: for a list of N >= 1 entries that point to decoded slices of one in-plane size
`w` by `h` and carry numeric, pairwise distinct keys, lines 211-252 (with a `std::sort`
that meets its contract and an allocation that does not throw) build a volume of
size `(w, h, N)`; the sorted list is a rearrangement of the input in strictly
ascending key order, so that its entry `i` is the slice with exactly `i` smaller keys;
and pixel `(x, y, i)` of the volume is pixel `(x, y, 0)` of that slice. -/
theorem volume_planes_follow_key_order (env : Env) (dcm_list : List DCMDate) (w h : Nat)
    (hsort : StdSortContract env.stdSort)
    (hne : dcm_list ≠ [])
    (hslices : ∀ d ∈ dcm_list, ∃ p, d.ptr = some p ∧ Decoded p ∧ p.size.x = w ∧ p.size.y = h)
    (hparse : ∀ d ∈ dcm_list, d.date ≠ .nan)
    (hdistinct : (dcm_list.map (fun d => d.date)).Nodup)
    (halloc : env.allocateThrows ⟨w, h, dcm_list.length⟩ = false) :
    ∃ angio, (buildVolume env dcm_list).2 = .ok angio ∧
      angio.size = ⟨w, h, dcm_list.length⟩ ∧
      (env.stdSort sortByAcquisitionDate dcm_list).Perm dcm_list ∧
      (env.stdSort sortByAcquisitionDate dcm_list).Pairwise
        (fun a b => sortByAcquisitionDate a b = true) ∧
      ∀ i x y : Nat, i < dcm_list.length → x < w → y < h →
        ∃ d p v, (env.stdSort sortByAcquisitionDate dcm_list)[i]? = some d ∧
          dcm_list.countP (fun e => sortByAcquisitionDate e d) = i ∧
          d.ptr = some p ∧ GetPixel p ⟨x, y, 0⟩ = some v ∧
          GetPixel angio ⟨x, y, i⟩ = some v := by
  obtain ⟨hperm, hstrict⟩ := stdSort_strict env.stdSort hsort dcm_list hparse hdistinct
  cases hs : env.stdSort sortByAcquisitionDate dcm_list with
  | nil =>
    rw [hs] at hperm
    exact absurd hperm.symm.eq_nil hne
  | cons d0 rest =>
    rw [hs] at hperm hstrict
    have hlen : rest.length + 1 = dcm_list.length := by
      simpa using hperm.length_eq
    obtain ⟨p0, hp0, _, hw0, hh0⟩ := hslices d0 (hperm.mem_iff.mp (List.mem_cons_self d0 rest))
    have hall : ∀ d ∈ d0 :: rest, ∃ p, d.ptr = some p ∧ Decoded p ∧
        p0.size.x ≤ p.size.x ∧ p0.size.y ≤ p.size.y := by
      intro d hd
      obtain ⟨p, hp, hdec, hw, hh⟩ := hslices d (hperm.mem_iff.mp hd)
      exact ⟨p, hp, hdec, by omega, by omega⟩
    obtain ⟨angio, hbuild, hsize, _, _, _, hpix⟩ := buildVolume_spec env dcm_list d0 rest p0 hs
      hp0 hall (by rw [hlen, hw0, hh0]; exact halloc)
    refine ⟨angio, by rw [hbuild], by rw [hsize, hw0, hh0, hlen], hperm, hstrict, ?_⟩
    intro i x y hi hx hy
    have hi1 : i < (d0 :: rest).length := by simpa [hlen] using hi
    obtain ⟨hget, hsome⟩ := hpix i x y (by omega) (by omega) (by omega)
    have hd : (d0 :: rest)[i]? = some ((d0 :: rest)[i]) := List.getElem?_eq_getElem hi1
    obtain ⟨p, hp, _, _, _⟩ := hall _ (List.getElem_mem hi1)
    have hsp : slicePixel (d0 :: rest) i x y = GetPixel p ⟨x, y, 0⟩ := by
      simp [slicePixel, hd, hp]
    obtain ⟨v, hv⟩ := Option.isSome_iff_exists.mp hsome
    refine ⟨_, p, v, hd, ?_, hp, by rw [← hsp, hv], by rw [hget, hv]⟩
    rw [← hperm.countP_eq]
    exact countP_lt_of_pairwise _ hstrict i _ hd

/-- C1 on three 4 x 4 slices enumerated with the keys 30.0, 10.0, 20.0: the sorted
list is [key 10.0, key 20.0, key 30.0] and the volume is 4 x 4 x 3. -/
theorem volume_planes_follow_key_order_witness :
    exampleEnv.stdSort sortByAcquisitionDate exampleList =
      [⟨.fin 10, some (exampleSlice "10.0" 100)⟩, ⟨.fin 20, some (exampleSlice "20.0" 200)⟩,
       ⟨.fin 30, some (exampleSlice "30.0" 300)⟩] ∧
    (writtenVolumes (main exampleEnv "in" "out" false).trace).map (fun a => (a.size, a.buffer))
      = [(⟨4, 4, 3⟩, (List.range 16).map (fun k => 100 + k)
          ++ (List.range 16).map (fun k => 200 + k) ++ (List.range 16).map (fun k => 300 + k))] ∧
    ∃ angio, (buildVolume exampleEnv exampleList).2 = .ok angio ∧
      angio.size = ⟨4, 4, 3⟩ ∧
      (exampleEnv.stdSort sortByAcquisitionDate exampleList).Perm exampleList ∧
      (exampleEnv.stdSort sortByAcquisitionDate exampleList).Pairwise
        (fun a b => sortByAcquisitionDate a b = true) ∧
      ∀ i x y : Nat, i < 3 → x < 4 → y < 4 →
        ∃ d p v, (exampleEnv.stdSort sortByAcquisitionDate exampleList)[i]? = some d ∧
          exampleList.countP (fun e => sortByAcquisitionDate e d) = i ∧
          d.ptr = some p ∧ GetPixel p ⟨x, y, 0⟩ = some v ∧
          GetPixel angio ⟨x, y, i⟩ = some v :=
  ⟨by decide, by decide,
   volume_planes_follow_key_order exampleEnv exampleList 4 4 tiesFirstSort_contract
    (by decide) (by simp [exampleList, Decoded, exampleSlice]) (by simp [exampleList])
    (by decide) rfl⟩

/-! ### C2 -/

/-- Two rearrangements of one list that are both ordered by a relation that is
antisymmetric on their elements are equal. -/
theorem eq_of_perm_of_pairwise_on {α : Type} (r : α → α → Prop) :
    ∀ (l1 l2 : List α), l1.Perm l2 →
      (∀ a ∈ l1, ∀ b ∈ l1, r a b → r b a → a = b) →
      l1.Pairwise r → l2.Pairwise r → l1 = l2
  | [], l2, hp, _, _, _ => hp.nil_eq
  | a :: t1, [], hp, _, _, _ => absurd hp.eq_nil (List.cons_ne_nil a t1)
  | a :: t1, b :: t2, hp, hanti, h1, h2 => by
    rw [List.pairwise_cons] at h1 h2
    have hab : a = b := by
      have ha : a ∈ b :: t2 := hp.mem_iff.mp (List.mem_cons_self a t1)
      have hb : b ∈ a :: t1 := hp.mem_iff.mpr (List.mem_cons_self b t2)
      rcases List.mem_cons.mp ha with h | ha2
      · exact h
      rcases List.mem_cons.mp hb with h | hb2
      · exact h.symm
      exact hanti a (List.mem_cons_self a t1) b hb (h1.1 b hb2) (h2.1 a ha2)
    subst hab
    have := eq_of_perm_of_pairwise_on r t1 t2 hp.cons_inv
      (fun x hx y hy => hanti x (List.mem_cons_of_mem a hx) y (List.mem_cons_of_mem a hy))
      h1.2 h2.2
    rw [this]

/-- C2, counterexample: on twenty slices with the same key the `std::sort` of
libstdc++ returns the slices numbered 10, 19, 18, ..., 11, 0, 9, 8, ..., 1 in their
enumeration; the run on the folder with these twenty slices reads them in
enumeration order, sorts them so and ends normally, and the slices with that key
do not keep their enumeration order. -/
theorem sort_not_stable :
    Libstdcxx.sort sortByAcquisitionDate tieList =
      some ([10, 19, 18, 17, 16, 15, 14, 13, 12, 11, 0, 9, 8, 7, 6, 5, 4, 3, 2, 1].map
        (fun k => ⟨.fin 10, some (exampleSlice "10.0" k)⟩)) ∧
    tieFiles.map (entryOf tieEnv) = tieList ∧
    Event.sort ([10, 19, 18, 17, 16, 15, 14, 13, 12, 11, 0, 9, 8, 7, 6, 5, 4, 3, 2, 1].map
        (fun k => ⟨.fin 10, some (exampleSlice "10.0" k)⟩))
      ∈ (main tieEnv "in" "out" false).trace ∧
    (main tieEnv "in" "out" false).status = .success ∧
    ¬ KeepsTies tieList (tieEnv.stdSort sortByAcquisitionDate tieList) := by
  refine ⟨by decide!, by decide!, by decide!, by decide!, ?_⟩
  intro h
  have := h (.fin 10)
  revert this
  decide!

/-- C2, amended: with numeric keys, a `std::sort` that meets its contract returns a
rearrangement of the slice list in which no slice has a smaller key than one before
it, and the key at every position is the same whichever such sort is used (it is
the key the tie-keeping insertion sort puts there); only the order of slices with
equal keys is left open. -/
theorem sorted_keys_determined
    (sort : (DCMDate → DCMDate → Bool) → List DCMDate → List DCMDate)
    (hsort : StdSortContract sort) (l : List DCMDate) (hnum : ∀ d ∈ l, d.date ≠ .nan) :
    (sort sortByAcquisitionDate l).Perm l ∧
    (sort sortByAcquisitionDate l).Pairwise (fun a b => sortByAcquisitionDate b a = false) ∧
    (sort sortByAcquisitionDate l).map (fun d => d.date)
      = (tiesFirstSort sortByAcquisitionDate l).map (fun d => d.date) := by
  have hswo := sortByAcquisitionDate_strictWeakOn l hnum
  obtain ⟨hp1, hs1⟩ := hsort sortByAcquisitionDate l hswo
  obtain ⟨hp2, hs2⟩ := tiesFirstSort_contract sortByAcquisitionDate l hswo
  refine ⟨hp1, hs1, ?_⟩
  apply eq_of_perm_of_pairwise_on (fun a b => Double.lt b a = false)
  · exact (hp1.trans hp2.symm).map _
  · intro a ha b hb hab hba
    obtain ⟨da, hda, rfl⟩ := List.mem_map.mp ha
    obtain ⟨db, hdb, rfl⟩ := List.mem_map.mp hb
    exact Double.eq_of_not_lt (hnum da (hp1.mem_iff.mp hda)) (hnum db (hp1.mem_iff.mp hdb))
      hba hab
  · exact List.pairwise_map.mpr hs1
  · exact List.pairwise_map.mpr hs2

/-- C2, amended, on the twenty slices with one key sorted by `tiesLastSort`. -/
theorem sorted_keys_determined_witness :
    (tiesLastSort sortByAcquisitionDate tieList).Perm tieList ∧
    (tiesLastSort sortByAcquisitionDate tieList).Pairwise
      (fun a b => sortByAcquisitionDate b a = false) ∧
    (tiesLastSort sortByAcquisitionDate tieList).map (fun d => d.date)
      = (tiesFirstSort sortByAcquisitionDate tieList).map (fun d => d.date) :=
  sorted_keys_determined tiesLastSort tiesLastSort_contract tieList (by simp [tieList])

/-! ### C5 -/

/-- C5, counterexample: a slice whose Content Time is the text `abc`, for which
`atof` gives `0.0`, is given the key 0 and the run goes on to write the volume and
ends normally; nothing is written to the error stream. -/
theorem unparseable_key_accepted :
    (main badKeyEnv "in" "out" false).status = .success ∧
    Event.sort [⟨.fin 0, some (exampleSlice "abc" 0)⟩] ∈ (main badKeyEnv "in" "out" false).trace ∧
    (∃ angio, Event.writerUpdate angio "out" ∈ (main badKeyEnv "in" "out" false).trace) ∧
    ∀ msg, Event.cerr msg ∉ (main badKeyEnv "in" "out" false).trace := by
  refine ⟨by decide, by decide, ?_, ?_⟩
  · refine ⟨{ exampleSlice "abc" 0 with dict := [] }, by decide⟩
  · intro msg
    have h : ∀ e ∈ (main badKeyEnv "in" "out" false).trace,
        (match e with | .cerr _ => false | _ => true) = true := by decide
    intro hmem
    exact Bool.false_ne_true (h _ hmem)

/-- C5, amended: for a slice that decodes, whose dictionary has the entry `0008|0033`
as a string, and for which the label lookup succeeds, the read-loop body never
fails, whatever the string is: entry `i` of the list becomes the pair of
`atof` of the string and the slice, and the loop goes on. -/
theorem key_extraction_never_fails (env : Env) (verbose : Bool) (fileNames : List String)
    (i : Nat) (file : String) (im : DCMImage) (tagkey tagvalue labelId : String)
    (st : List Event × List DCMDate)
    (hf : fileNames[i]? = some file) (hr : env.readSlice file = some im)
    (hfind : im.dict.find? (fun e => e.1 == entry_id) = some (tagkey, .str tagvalue))
    (hl : env.getLabelFromTag tagkey = some labelId) :
    ∃ tr, readBody env verbose fileNames i st =
      .ok (tr, st.2.set i ⟨env.atof tagvalue, some im⟩) := by
  cases verbose <;> simp [readBody, hf, hr, hfind, hl]

/-- C5, amended, on the slice whose Content Time is `abc`. -/
theorem key_extraction_never_fails_witness :
    ∃ tr, readBody badKeyEnv false ["x.dcm"] 0 ([], [DCMDate.default (.fin 0)]) =
      .ok (tr, [DCMDate.default (.fin 0)].set 0
        ⟨badKeyEnv.atof "abc", some (exampleSlice "abc" 0)⟩) :=
  key_extraction_never_fails badKeyEnv false ["x.dcm"] 0 "x.dcm" (exampleSlice "abc" 0)
    entry_id "abc" "Content Time" ([], [DCMDate.default (.fin 0)]) (by decide) (by decide)
    (by decide) (by decide)

/-! ### C6 -/

/-- C6, counterexample: in a folder where no series is found the run does not end
with `EXIT_FAILURE`: line 158 takes `begin()` of the empty list of series and
dereferences it.  No file is read and neither the sort, the allocation nor the
writer is reached. -/
theorem no_series_no_error :
    (main noSeriesEnv "in" "out" false).status = .undefined .emptySeries ∧
    (main noSeriesEnv "in" "out" false).status ≠ .failure ∧
    readFiles (main noSeriesEnv "in" "out" false).trace = [] ∧
    ∀ e ∈ (main noSeriesEnv "in" "out" false).trace, e.afterRead = false := by
  decide

/-- C6, amended: when both paths are given and no file is discovered (no series is
found, or the first series has zero files), the run does not end with
`EXIT_FAILURE` and does not end normally either; no file is read, the volume is
not allocated and the writer is not called.  With no series the run ends at line
158, before the sort; with a series of zero files it sorts the empty list and ends
by the exception of `dcm_list.at(0)` that nobody catches. -/
theorem no_files_no_not_found_error (env : Env) (inputPath outputPath : String)
    (verbose : Bool)
    (hsort : StdSortContract env.stdSort)
    (hin : inputPath ≠ "") (hout : outputPath ≠ "")
    (hnone : env.seriesUIDs inputPath = [] ∨
      ∃ uid rest, env.seriesUIDs inputPath = uid :: rest ∧ env.fileNames inputPath uid = []) :
    (main env inputPath outputPath verbose).status ≠ .failure ∧
    (main env inputPath outputPath verbose).status ≠ .success ∧
    readFiles (main env inputPath outputPath verbose).trace = [] ∧
    (∀ size, Event.allocate size ∉ (main env inputPath outputPath verbose).trace) ∧
    (∀ volume path,
      Event.writerUpdate volume path ∉ (main env inputPath outputPath verbose).trace) ∧
    (env.seriesUIDs inputPath = [] →
      (main env inputPath outputPath verbose).status = .undefined .emptySeries ∧
      ∀ e ∈ (main env inputPath outputPath verbose).trace, e.afterRead = false) ∧
    ((∃ uid rest, env.seriesUIDs inputPath = uid :: rest ∧
        env.fileNames inputPath uid = []) →
      (main env inputPath outputPath verbose).status = .terminated ∧
      Event.sort [] ∈ (main env inputPath outputPath verbose).trace) := by
  rcases hnone with huid | ⟨uid, rest, huid, hfiles⟩
  · have hmain : main env inputPath outputPath verbose =
        ⟨[.cout .banner, .cout (.inputs verbose inputPath outputPath)],
          .undefined .emptySeries⟩ := by
      simp [main, hin, hout, huid]
    rw [hmain]
    refine ⟨by simp, by simp, by simp [readFiles], by simp, by simp, ?_, ?_⟩
    · intro _
      exact ⟨rfl, by simp [Event.afterRead]⟩
    · rintro ⟨uid, rest, h, _⟩
      rw [huid] at h
      exact absurd h (List.cons_ne_nil uid rest).symm
  · have hnil : env.stdSort sortByAcquisitionDate [] = [] :=
      (hsort sortByAcquisitionDate []
        (sortByAcquisitionDate_strictWeakOn [] (by simp))).1.eq_nil
    have hmain : main env inputPath outputPath verbose =
        ⟨[.cout .banner, .cout (.inputs verbose inputPath outputPath), .sort []],
          .terminated⟩ := by
      simp [main, hin, hout, huid, hfiles, pipeline, readLoop, forLoop, buildVolume, hnil,
        volumeHeader]
    rw [hmain]
    refine ⟨by simp, by simp, by simp [readFiles], by simp, by simp, ?_, ?_⟩
    · intro h
      rw [huid] at h
      exact absurd h (List.cons_ne_nil uid rest)
    · intro _
      exact ⟨rfl, by simp⟩

/-- C6, amended, on the folder in which no series is found. -/
theorem no_files_no_not_found_error_witness :
    (main noSeriesEnv "in" "out" true).status ≠ .failure ∧
    (main noSeriesEnv "in" "out" true).status ≠ .success ∧
    readFiles (main noSeriesEnv "in" "out" true).trace = [] ∧
    (∀ size, Event.allocate size ∉ (main noSeriesEnv "in" "out" true).trace) ∧
    (∀ volume path,
      Event.writerUpdate volume path ∉ (main noSeriesEnv "in" "out" true).trace) ∧
    (noSeriesEnv.seriesUIDs "in" = [] →
      (main noSeriesEnv "in" "out" true).status = .undefined .emptySeries ∧
      ∀ e ∈ (main noSeriesEnv "in" "out" true).trace, e.afterRead = false) ∧
    ((∃ uid rest, noSeriesEnv.seriesUIDs "in" = uid :: rest ∧
        noSeriesEnv.fileNames "in" uid = []) →
      (main noSeriesEnv "in" "out" true).status = .terminated ∧
      Event.sort [] ∈ (main noSeriesEnv "in" "out" true).trace) :=
  no_files_no_not_found_error noSeriesEnv "in" "out" true tiesFirstSort_contract
    (by decide) (by decide) (Or.inl rfl)

/-! ### C7 -/

/-- C7: for a non-empty sorted list whose first entry points to a slice `p0`, the
volume created by lines 215-234 has size `(p0 width, p0 height, N)`, start index
`(0, 0, 0)`, the origin of `p0` and the in-plane spacing of `p0`; when the allocation
does not throw it holds one pixel per index; and any other list of the same length
whose first entry points to `p0` gives the same volume, whatever the keys are. -/
theorem volume_geometry (env : Env) (d0 : DCMDate) (rest : List DCMDate) (p0 : DCMImage)
    (hp0 : d0.ptr = some p0) :
    ∃ header, volumeHeader (d0 :: rest) = .ok header ∧
      (allocate env header).2.size = ⟨p0.size.x, p0.size.y, (d0 :: rest).length⟩ ∧
      (allocate env header).2.start = ⟨0, 0, 0⟩ ∧
      (allocate env header).2.origin = p0.origin ∧
      (allocate env header).2.spacing.x = p0.spacing.x ∧
      (allocate env header).2.spacing.y = p0.spacing.y ∧
      (env.allocateThrows ⟨p0.size.x, p0.size.y, (d0 :: rest).length⟩ = false →
        (allocate env header).2.buffer.length = p0.size.x * p0.size.y * (d0 :: rest).length) ∧
      ∀ (d1 : DCMDate) (rest1 : List DCMDate), d1.ptr = some p0 →
        rest1.length = rest.length → volumeHeader (d1 :: rest1) = .ok header := by
  refine ⟨⟨⟨p0.size.x, p0.size.y, (d0 :: rest).length⟩, ⟨0, 0, 0⟩, p0.origin, p0.spacing, [], []⟩,
    by simp [volumeHeader, hp0], ?_, ?_, ?_, ?_, ?_, ?_, ?_⟩
  · unfold allocate; split <;> rfl
  · unfold allocate; split <;> rfl
  · unfold allocate; split <;> rfl
  · unfold allocate; split <;> rfl
  · unfold allocate; split <;> rfl
  · intro h
    simp only [List.length_cons] at h
    simp [allocate, h]
  · intro d1 rest1 h1 hlen
    simp [volumeHeader, h1, hlen]

/-- C7 on the three sorted 4 x 4 slices: the volume is 4 x 4 x 3. -/
theorem volume_geometry_witness :
    ∃ header, volumeHeader (exampleEnv.stdSort sortByAcquisitionDate exampleList) = .ok header ∧
      (allocate exampleEnv header).2.size = ⟨4, 4, 3⟩ ∧
      (allocate exampleEnv header).2.start = ⟨0, 0, 0⟩ ∧
      (allocate exampleEnv header).2.origin = (exampleSlice "10.0" 100).origin ∧
      (allocate exampleEnv header).2.spacing.x = (exampleSlice "10.0" 100).spacing.x ∧
      (allocate exampleEnv header).2.spacing.y = (exampleSlice "10.0" 100).spacing.y ∧
      (exampleEnv.allocateThrows ⟨4, 4, 3⟩ = false →
        (allocate exampleEnv header).2.buffer.length = 4 * 4 * 3) ∧
      ∀ (d1 : DCMDate) (rest1 : List DCMDate), d1.ptr = some (exampleSlice "10.0" 100) →
        rest1.length = 2 → volumeHeader (d1 :: rest1) = .ok header :=
  volume_geometry exampleEnv ⟨.fin 10, some (exampleSlice "10.0" 100)⟩
    [⟨.fin 20, some (exampleSlice "20.0" 200)⟩, ⟨.fin 30, some (exampleSlice "30.0" 300)⟩]
    (exampleSlice "10.0" 100) rfl

/-! ### C8 -/

/-- C8, at the failing input: when `angio->Allocate()` throws, the handler prints its
message and the run goes on into the fill loop, where the first `SetPixel` writes
into a container that was never allocated; the run does not end with
`EXIT_FAILURE`. -/
theorem allocation_failure_not_fatal :
    (main allocFailEnv "in" "out" false).status = .undefined .setPixel ∧
    (main allocFailEnv "in" "out" false).trace.getLast? = some (.cerr .allocationError) ∧
    (main allocFailEnv "in" "out" false).status ≠ .failure := by
  decide

/-! ### C10 -/

/-- With both paths given and a series found, `main` is the pipeline on the files of
the first series. -/
theorem main_eq_pipeline (env : Env) (inputPath outputPath : String) (verbose : Bool)
    (uid : String) (rest : List String) (hin : inputPath ≠ "") (hout : outputPath ≠ "")
    (huid : env.seriesUIDs inputPath = uid :: rest) :
    main env inputPath outputPath verbose =
      pipeline env verbose outputPath (env.fileNames inputPath uid)
        [.cout .banner, .cout (.inputs verbose inputPath outputPath)] := by
  simp [main, hin, hout, huid]

/-- C4: when some file `i` of the series decodes to a slice whose dictionary has no
entry `0008|0033`, the run ends with `EXIT_FAILURE`; no sort, allocation or call of
the writer takes place; the reader has been run on the files up to some `j <= i`
only; and when no earlier file makes the loop give up (so that `i` is the first
slice without the entry and the loop gets to it), the run ends at `i` itself, the
message that the tag was not found being its last event. -/
theorem missing_tag_aborts (env : Env) (inputPath outputPath : String) (verbose : Bool)
    (uid : String) (rest : List String) (i : Nat) (file : String) (im : DCMImage)
    (hin : inputPath ≠ "") (hout : outputPath ≠ "")
    (huid : env.seriesUIDs inputPath = uid :: rest)
    (hf : (env.fileNames inputPath uid)[i]? = some file)
    (hr : env.readSlice file = some im)
    (hmiss : im.dict.find? (fun e => e.1 == entry_id) = none) :
    (main env inputPath outputPath verbose).status = .failure ∧
    (∀ e ∈ (main env inputPath outputPath verbose).trace, e.afterRead = false) ∧
    ∃ j, j ≤ i ∧
      readFiles (main env inputPath outputPath verbose).trace
        = (env.fileNames inputPath uid).take (j + 1) ∧
      ((∀ m g, m < i → (env.fileNames inputPath uid)[m]? = some g → abortOf env g = none) →
        j = i ∧
        (main env inputPath outputPath verbose).trace.getLast? = some (.cerr .tagNotFound)) := by
  have hab : abortOf env file = some .tagNotFound := by simp [abortOf, hr, hmiss]
  rw [main_eq_pipeline env inputPath outputPath verbose uid rest hin hout huid]
  rcases readLoop_cases env verbose (env.fileNames inputPath uid)
      [.cout .banner, .cout (.inputs verbose inputPath outputPath)] with
    ⟨ev, _, hnone, _, _⟩ | ⟨j, g, msg, ev, hj, habj, hfirst, hloop, hev, hfiles, hlast⟩
  · have := hnone file (List.mem_iff_getElem?.mpr ⟨i, hf⟩)
    rw [hab] at this
    exact Option.noConfusion this
  · have hji : j ≤ i := by
      by_contra hlt
      have := hfirst i file (by omega) hf
      rw [hab] at this
      exact Option.noConfusion this
    have hne : ev ≠ [] := by
      intro h
      rw [h] at hlast
      simp at hlast
    have hp : pipeline env verbose outputPath (env.fileNames inputPath uid)
        [.cout .banner, .cout (.inputs verbose inputPath outputPath)] =
        ⟨[.cout .banner, .cout (.inputs verbose inputPath outputPath)] ++ ev, .failure⟩ := by
      simp only [pipeline, hloop]
    rw [hp]
    refine ⟨rfl, ?_, j, hji, ?_, ?_⟩
    · intro e he
      rcases List.mem_append.mp he with he | he
      · simp at he
        rcases he with rfl | rfl <;> rfl
      · exact hev e he
    · rw [readFiles_append, hfiles]
      simp [readFiles]
    · intro hbefore
      have hij : j = i := by
        by_contra hne1
        have := hbefore j g (by omega) hj
        rw [habj] at this
        exact Option.noConfusion this
      subst hij
      rw [hf] at hj
      cases hj
      rw [hab] at habj
      cases habj
      exact ⟨rfl, by rw [List.getLast?_append_of_ne_nil _ hne]; exact hlast⟩

/-- C4 on the example folder with the entry removed from the second slice: the run
ends with `EXIT_FAILURE` at the second file. -/
theorem missing_tag_aborts_witness :
    (main missingTagEnv "in" "out" false).status = .failure ∧
    (∀ e ∈ (main missingTagEnv "in" "out" false).trace, e.afterRead = false) ∧
    ∃ j, j ≤ 1 ∧
      readFiles (main missingTagEnv "in" "out" false).trace
        = (missingTagEnv.fileNames "in" "1.2.840.1").take (j + 1) ∧
      ((∀ m g, m < 1 → (missingTagEnv.fileNames "in" "1.2.840.1")[m]? = some g →
          abortOf missingTagEnv g = none) →
        j = 1 ∧
        (main missingTagEnv "in" "out" false).trace.getLast? = some (.cerr .tagNotFound)) :=
  missing_tag_aborts missingTagEnv "in" "out" false "1.2.840.1" [] 1 "b.dcm"
    { exampleSlice "10.0" 100 with dict := [] } (by decide) (by decide) rfl rfl rfl rfl

/-! ### C9 -/

theorem quiet_append (a b : List Event) : quiet (a ++ b) = quiet a ++ quiet b := by
  simp [quiet]

/-- An event that is not a line of standard output is in a trace exactly when it is
in the trace without those lines. -/
theorem mem_quiet (e : Event) (he : e.isCout = false) (tr : List Event) :
    e ∈ quiet tr ↔ e ∈ tr := by
  simp [quiet, List.mem_filter, he]

/-- Loops whose bodies take related states to related results take related states to
related results. -/
theorem forLoop_rel {ε σ : Type} (Re : ε → ε → Prop) (Rs : σ → σ → Prop) (n : Nat)
    (b1 b2 : Nat → σ → Except ε σ) (s1 s2 : σ) (hs : Rs s1 s2)
    (hb : ∀ k t1 t2, Rs t1 t2 → ExceptRel Re Rs (b1 k t1) (b2 k t2)) :
    ExceptRel Re Rs (forLoop n b1 s1) (forLoop n b2 s2) := by
  induction n with
  | zero => exact hs
  | succ m ih =>
    unfold forLoop
    cases h1 : forLoop m b1 s1 with
    | error e1 =>
      cases h2 : forLoop m b2 s2 with
      | error e2 => rw [h1, h2] at ih; exact ih
      | ok t2 => rw [h1, h2] at ih; exact ih.elim
    | ok t1 =>
      cases h2 : forLoop m b2 s2 with
      | error e2 => rw [h1, h2] at ih; exact ih.elim
      | ok t2 =>
        rw [h1, h2] at ih
        exact hb m t1 t2 ih

/-- The read-loop body does the same for both values of `verbose`, apart from the
standard output. -/
theorem readBody_quiet (env : Env) (v1 v2 : Bool) (fileNames : List String) (k : Nat)
    (s1 s2 : List Event × List DCMDate) (hs : SameQuietState s1 s2) :
    ExceptRel SameQuietRun SameQuietState
      (readBody env v1 fileNames k s1) (readBody env v2 fileNames k s2) := by
  obtain ⟨htr, hl⟩ := hs
  unfold readBody
  cases fileNames[k]? with
  | none => exact ⟨htr, rfl⟩
  | some file =>
    simp only
    cases env.readSlice file with
    | none =>
      cases v1 <;> cases v2 <;>
        simp [ExceptRel, SameQuietRun, quiet_append, htr] <;> simp [quiet, Event.isCout]
    | some im =>
      simp only
      cases im.dict.find? (fun e => e.1 == entry_id) with
      | none =>
        cases v1 <;> cases v2 <;>
          simp [ExceptRel, SameQuietRun, quiet_append, htr] <;> simp [quiet, Event.isCout]
      | some e =>
        obtain ⟨tagkey, obj⟩ := e
        cases obj with
        | other =>
          cases v1 <;> cases v2 <;>
            simp [ExceptRel, SameQuietRun, quiet_append, htr] <;> simp [quiet, Event.isCout]
        | str v =>
          simp only
          cases env.getLabelFromTag tagkey with
          | none =>
            cases v1 <;> cases v2 <;>
              simp [ExceptRel, SameQuietState, quiet_append, htr, hl] <;>
              simp [quiet, Event.isCout]
          | some label =>
            cases v1 <;> cases v2 <;>
              simp [ExceptRel, SameQuietState, quiet_append, htr, hl] <;>
              simp [quiet, Event.isCout]

/-- The pipeline does the same for both values of `verbose`, apart from the standard
output. -/
theorem pipeline_quiet (env : Env) (v1 v2 : Bool) (outputPath : String)
    (fileNames : List String) (tr1 tr2 : List Event) (htr : quiet tr1 = quiet tr2) :
    SameQuietRun (pipeline env v1 outputPath fileNames tr1)
      (pipeline env v2 outputPath fileNames tr2) := by
  have hloop := forLoop_rel SameQuietRun SameQuietState fileNames.length
    (readBody env v1 fileNames) (readBody env v2 fileNames)
    (tr1, List.replicate fileNames.length (DCMDate.default env.uninitDate))
    (tr2, List.replicate fileNames.length (DCMDate.default env.uninitDate))
    ⟨htr, rfl⟩ (fun k t1 t2 h => readBody_quiet env v1 v2 fileNames k t1 t2 h)
  unfold pipeline readLoop
  cases h1 : forLoop fileNames.length (readBody env v1 fileNames)
      (tr1, List.replicate fileNames.length (DCMDate.default env.uninitDate)) with
  | error r1 =>
    cases h2 : forLoop fileNames.length (readBody env v2 fileNames)
        (tr2, List.replicate fileNames.length (DCMDate.default env.uninitDate)) with
    | error r2 => rw [h1, h2] at hloop; exact hloop
    | ok t2 => rw [h1, h2] at hloop; exact hloop.elim
  | ok t1 =>
    cases h2 : forLoop fileNames.length (readBody env v2 fileNames)
        (tr2, List.replicate fileNames.length (DCMDate.default env.uninitDate)) with
    | error r2 => rw [h1, h2] at hloop; exact hloop.elim
    | ok t2 =>
      rw [h1, h2] at hloop
      obtain ⟨ta, la⟩ := t1
      obtain ⟨tb, lb⟩ := t2
      obtain ⟨hq, hl⟩ := hloop
      simp only at hq hl
      subst hl
      simp only
      cases hbuild : buildVolume env la with
      | mk ev res =>
        cases res with
        | error e => exact ⟨by simp [quiet_append, hq], rfl⟩
        | ok angio =>
          simp only [writeVolume]
          cases env.writerThrows angio outputPath <;> cases v1 <;> cases v2 <;>
            simp [SameQuietRun, quiet_append, hq] <;> simp [quiet, Event.isCout]

/-- C9: two runs that differ only in the value of `verbose` end the same way and have
the same trace once the lines of standard output are left out; in particular they
sort to the same list and call the writer with the same volume and path. -/
theorem verbose_only_console (env : Env) (inputPath outputPath : String) (v1 v2 : Bool) :
    (main env inputPath outputPath v1).status = (main env inputPath outputPath v2).status ∧
    quiet (main env inputPath outputPath v1).trace
      = quiet (main env inputPath outputPath v2).trace ∧
    (∀ sorted, Event.sort sorted ∈ (main env inputPath outputPath v1).trace ↔
      Event.sort sorted ∈ (main env inputPath outputPath v2).trace) ∧
    (∀ volume path, Event.writerUpdate volume path ∈ (main env inputPath outputPath v1).trace ↔
      Event.writerUpdate volume path ∈ (main env inputPath outputPath v2).trace) := by
  have hmain : SameQuietRun (main env inputPath outputPath v1)
      (main env inputPath outputPath v2) := by
    unfold main
    by_cases hpaths : inputPath = "" ∨ outputPath = ""
    · rw [if_pos hpaths, if_pos hpaths]
      exact ⟨rfl, rfl⟩
    · rw [if_neg hpaths, if_neg hpaths]
      simp only
      cases env.seriesUIDs inputPath with
      | nil => exact ⟨by simp [quiet, Event.isCout], rfl⟩
      | cons uid rest =>
        exact pipeline_quiet env v1 v2 outputPath _ _ _ (by simp [quiet, Event.isCout])
  obtain ⟨hq, hst⟩ := hmain
  refine ⟨hst, hq, ?_, ?_⟩
  · intro sorted
    rw [← mem_quiet (Event.sort sorted) rfl (main env inputPath outputPath v1).trace,
      ← mem_quiet (Event.sort sorted) rfl (main env inputPath outputPath v2).trace, hq]
  · intro volume path
    rw [← mem_quiet (Event.writerUpdate volume path) rfl (main env inputPath outputPath v1).trace,
      ← mem_quiet (Event.writerUpdate volume path) rfl (main env inputPath outputPath v2).trace, hq]

/-! ### C3 -/

/-- A file whose entry holds a slice does not make the read loop give up. -/
theorem abortOf_eq_none_of_ptr (env : Env) (file : String) (p : DCMImage)
    (h : (entryOf env file).ptr = some p) : abortOf env file = none := by
  unfold entryOf at h
  unfold abortOf
  cases hr : env.readSlice file with
  | none => rw [hr] at h; simp [DCMDate.default] at h
  | some im =>
    rw [hr] at h
    simp only at h ⊢
    cases hfind : im.dict.find? (fun e => e.1 == entry_id) with
    | none => rw [hfind] at h; simp [DCMDate.default] at h
    | some e =>
      obtain ⟨tagkey, obj⟩ := e
      rw [hfind] at h
      cases obj with
      | other => simp [DCMDate.default] at h
      | str v => rfl

/-- C3, counterexample: with a 4 x 4 slice (key 10.0) and an 8 x 8 slice (key 20.0)
of different spacing, the run ends normally, nothing is written to the error
stream, and the writer is called once, with a volume of size 4 x 4 x 2. -/
theorem mismatched_slices_accepted :
    (main mismatchEnv "in" "out" false).status = .success ∧
    (writtenVolumes (main mismatchEnv "in" "out" false).trace).map (fun a => a.size)
      = [⟨4, 4, 2⟩] ∧
    ∀ msg, Event.cerr msg ∉ (main mismatchEnv "in" "out" false).trace := by
  refine ⟨by decide, by decide, ?_⟩
  intro msg
  have h : ∀ e ∈ (main mismatchEnv "in" "out" false).trace,
      (match e with | .cerr _ => false | _ => true) = true := by decide
  intro hmem
  exact Bool.false_ne_true (h _ hmem)

/-- C3, amended: the pipeline compares neither sizes nor spacings.  When both paths
are given, a series is found, every file yields a decoded slice with a numeric key,
`std::sort` meets its contract, every slice is at least as large in the plane as the
first sorted slice `p0`, and the allocation does not throw, the run reaches the
writer: the volume it is called with has size `(p0 width, p0 height, N)` and its
pixel `(x, y, i)` is pixel `(x, y, 0)` of sorted slice `i`; the run ends with
`EXIT_FAILURE` only if the writer throws. -/
theorem no_geometry_check (env : Env) (inputPath outputPath : String) (verbose : Bool)
    (uid : String) (uids : List String) (d0 : DCMDate) (rest : List DCMDate) (p0 : DCMImage)
    (hin : inputPath ≠ "") (hout : outputPath ≠ "")
    (huid : env.seriesUIDs inputPath = uid :: uids)
    (hsort : StdSortContract env.stdSort)
    (hslices : ∀ f ∈ env.fileNames inputPath uid, ∃ p, (entryOf env f).ptr = some p ∧
      Decoded p ∧ p0.size.x ≤ p.size.x ∧ p0.size.y ≤ p.size.y)
    (hnum : ∀ f ∈ env.fileNames inputPath uid, (entryOf env f).date ≠ .nan)
    (hs : env.stdSort sortByAcquisitionDate ((env.fileNames inputPath uid).map (entryOf env))
      = d0 :: rest)
    (hp0 : d0.ptr = some p0)
    (halloc : env.allocateThrows
      ⟨p0.size.x, p0.size.y, (env.fileNames inputPath uid).length⟩ = false) :
    ∃ angio, Event.writerUpdate angio outputPath ∈ (main env inputPath outputPath verbose).trace ∧
      (main env inputPath outputPath verbose).status =
        (if env.writerThrows angio outputPath = true then Exit.failure else Exit.success) ∧
      angio.size = ⟨p0.size.x, p0.size.y, (env.fileNames inputPath uid).length⟩ ∧
      ∀ i x y : Nat, i < (env.fileNames inputPath uid).length → x < p0.size.x → y < p0.size.y →
        GetPixel angio ⟨x, y, i⟩ = slicePixel (d0 :: rest) i x y ∧
        (slicePixel (d0 :: rest) i x y).isSome = true := by
  have hnum1 : ∀ d ∈ (env.fileNames inputPath uid).map (entryOf env), d.date ≠ .nan := by
    intro d hd
    obtain ⟨f, hf, rfl⟩ := List.mem_map.mp hd
    exact hnum f hf
  have hperm := (hsort sortByAcquisitionDate _ (sortByAcquisitionDate_strictWeakOn _ hnum1)).1
  rw [hs] at hperm
  have hlen : rest.length + 1 = (env.fileNames inputPath uid).length := by
    simpa using hperm.length_eq
  have hall : ∀ d ∈ d0 :: rest, ∃ p, d.ptr = some p ∧ Decoded p ∧
      p0.size.x ≤ p.size.x ∧ p0.size.y ≤ p.size.y := by
    intro d hd
    obtain ⟨f, hf, rfl⟩ := List.mem_map.mp (hperm.mem_iff.mp hd)
    exact hslices f hf
  obtain ⟨angio, hbuild, hsize, _, _, _, hpix⟩ := buildVolume_spec env _ d0 rest p0 hs hp0 hall
    (by rw [hlen]; exact halloc)
  rw [main_eq_pipeline env inputPath outputPath verbose uid uids hin hout huid]
  rcases readLoop_cases env verbose (env.fileNames inputPath uid)
      [.cout .banner, .cout (.inputs verbose inputPath outputPath)] with
    ⟨ev, hloop, _, _, _⟩ | ⟨j, g, msg, ev, hj, habj, _, _, _, _, _⟩
  · refine ⟨angio, ?_, ?_, by rw [hsize, hlen], ?_⟩
    · simp only [pipeline, hloop, hbuild, writeVolume]
      cases env.writerThrows angio outputPath <;> cases verbose <;> simp
    · simp only [pipeline, hloop, hbuild, writeVolume]
      cases env.writerThrows angio outputPath <;> simp
    · intro i x y hi hx hy
      exact hpix i x y (by omega) hx hy
  · obtain ⟨p, hp, _⟩ := hslices g (List.mem_iff_getElem?.mpr ⟨j, hj⟩)
    rw [abortOf_eq_none_of_ptr env g p hp] at habj
    exact Option.noConfusion habj

/-- C3, amended, on the 4 x 4 slice followed by the 8 x 8 slice: the writer is called
with a 4 x 4 x 2 volume. -/
theorem no_geometry_check_witness :
    ∃ angio, Event.writerUpdate angio "out" ∈ (main mismatchEnv "in" "out" false).trace ∧
      (main mismatchEnv "in" "out" false).status =
        (if mismatchEnv.writerThrows angio "out" = true then Exit.failure else Exit.success) ∧
      angio.size = ⟨4, 4, 2⟩ ∧
      ∀ i x y : Nat, i < 2 → x < 4 → y < 4 →
        GetPixel angio ⟨x, y, i⟩ =
          slicePixel [⟨.fin 10, some (exampleSlice "10.0" 100)⟩,
            ⟨.fin 20, some (exampleSlice8 "20.0" 200)⟩] i x y ∧
        (slicePixel [⟨.fin 10, some (exampleSlice "10.0" 100)⟩,
            ⟨.fin 20, some (exampleSlice8 "20.0" 200)⟩] i x y).isSome = true :=
  no_geometry_check mismatchEnv "in" "out" false "1.2.840.1" []
    ⟨.fin 10, some (exampleSlice "10.0" 100)⟩ [⟨.fin 20, some (exampleSlice8 "20.0" 200)⟩]
    (exampleSlice "10.0" 100) (by decide) (by decide) rfl tiesFirstSort_contract
    (by
      intro f hf
      have hf1 : f = "s.dcm" ∨ f = "b.dcm" := by simpa [mismatchEnv] using hf
      rcases hf1 with rfl | rfl
      · exact ⟨exampleSlice "10.0" 100, rfl, ⟨rfl, rfl, by decide⟩, by decide, by decide⟩
      · exact ⟨exampleSlice8 "20.0" 200, rfl, ⟨rfl, rfl, by decide⟩, by decide, by decide⟩)
    (by decide) (by decide) rfl rfl

end ReadAngio
